import Mathlib

/-!
# Verification of the p5.js procedural-geometry core (`p5.Geometry` / `p5.RendererGL`)

This file is a shallow embedding, over exact rational arithmetic, of the
geometry engine in `src/webgl/p5.Geometry.js` (the `p5.Geometry` class) and of
the polygon-tessellation / geometry-builder entry points of `p5.RendererGL`
(`_initTessy`'s `combinecallback`, `beginGeometry`, `endGeometry`,
`tessyVertexSize`), together with proofs about the embedded operations.

Modelling conventions, used consistently below:

* JavaScript numbers are modelled as exact rationals (`ℚ`).  All quantities the
  verified claims depend on (vertex counts, side codes, buffer layout, branch
  conditions, bounding boxes) are scale-exact, so no floating-point rounding
  is involved in their statements.
* `p5.Vector.normalize` rescales a nonzero vector to unit length and leaves the
  zero vector unchanged.  A unit vector is determined by any positive multiple
  of itself, so the stroke pipeline stores *direction representatives*: the
  unnormalized difference vector stands for its unit direction, and the zero
  vector stands for the zero tangent.  Every predicate the source evaluates on
  normalized vectors (`dir.magSq() > 0`, `dir.dot(lastValidDir) < 1 - 1e-8`) is
  expressed below by its exact scale-invariant equivalent on representatives.
* Transcendental scalar factors that the claims never depend on
  (`Math.asin(sinAlpha)/ln` in `_getFaceNormal`, `1/‖v‖` in vector
  normalization of accumulated normals) are taken as arbitrary function
  parameters; every theorem about them holds for *all* choices of these
  parameters.
* JavaScript `Map` objects are modelled as insertion-ordered association
  lists (update-in-place keeps the original position, insertion appends,
  iteration follows the list), and `Set` objects as lists queried only by
  membership.
-/

/-- A 3-component vector of exact rationals, modelling `p5.Vector` data. -/
structure Vec3 where
  x : ℚ
  y : ℚ
  z : ℚ
deriving DecidableEq, Repr

namespace Vec3

def zero : Vec3 := ⟨0, 0, 0⟩

def add (a b : Vec3) : Vec3 := ⟨a.x + b.x, a.y + b.y, a.z + b.z⟩

def sub (a b : Vec3) : Vec3 := ⟨a.x - b.x, a.y - b.y, a.z - b.z⟩

def smul (s : ℚ) (a : Vec3) : Vec3 := ⟨s * a.x, s * a.y, s * a.z⟩

def neg (a : Vec3) : Vec3 := smul (-1) a

def dot (a b : Vec3) : ℚ := a.x * b.x + a.y * b.y + a.z * b.z

/-- `p5.Vector.cross`: the cross product. -/
def cross (a b : Vec3) : Vec3 :=
  ⟨a.y * b.z - a.z * b.y, a.z * b.x - a.x * b.z, a.x * b.y - a.y * b.x⟩

/-- `p5.Vector.magSq`: squared magnitude. -/
def magSq (a : Vec3) : ℚ := a.x * a.x + a.y * a.y + a.z * a.z

/-- `v.array()`: the flat `[x, y, z]` representation pushed into buffers. -/
def arr (a : Vec3) : List ℚ := [a.x, a.y, a.z]

theorem magSq_nonneg (a : Vec3) : 0 ≤ a.magSq := by
  have hx := mul_self_nonneg a.x
  have hy := mul_self_nonneg a.y
  have hz := mul_self_nonneg a.z
  unfold magSq; linarith

theorem magSq_eq_zero_iff (a : Vec3) : a.magSq = 0 ↔ a = zero := by
  constructor
  · intro h
    have hx := mul_self_nonneg a.x
    have hy := mul_self_nonneg a.y
    have hz := mul_self_nonneg a.z
    unfold magSq at h
    have hx0 : a.x * a.x = 0 := by linarith
    have hy0 : a.y * a.y = 0 := by linarith
    have hz0 : a.z * a.z = 0 := by linarith
    cases a
    simp only [zero, mk.injEq]
    exact ⟨by nlinarith, by nlinarith, by nlinarith⟩
  · intro h; subst h; simp [magSq, zero]

theorem magSq_pos_iff (a : Vec3) : 0 < a.magSq ↔ a ≠ zero := by
  constructor
  · intro h he
    rw [← (magSq_eq_zero_iff a).mpr he] at h
    exact lt_irrefl _ h
  · intro h
    rcases lt_or_eq_of_le (magSq_nonneg a) with hlt | heq
    · exact hlt
    · exact absurd ((magSq_eq_zero_iff a).mp heq.symm) h

theorem sub_eq_zero_iff (a b : Vec3) : sub a b = zero ↔ a = b := by
  cases a; cases b
  simp only [sub, zero, mk.injEq]
  constructor
  · rintro ⟨h1, h2, h3⟩
    exact ⟨by linarith, by linarith, by linarith⟩
  · rintro ⟨h1, h2, h3⟩
    exact ⟨by linarith, by linarith, by linarith⟩

end Vec3

/-- The `p5.Geometry` aggregate: raw mesh data plus the derived stroke
buffers.  `p5.DataArray` fields are flat growable numeric buffers, modelled as
flat lists; `dirtyFlags` (a plain object used as a string-keyed flag set) is
modelled as the list of set keys. -/
structure Geometry where
  vertices : List Vec3
  vertexNormals : List Vec3
  faces : List (ℕ × ℕ × ℕ)
  uvs : List ℚ
  edges : List (ℕ × ℕ)
  vertexColors : List ℚ
  vertexStrokeColors : List ℚ
  lineVertices : List ℚ
  lineTangentsIn : List ℚ
  lineTangentsOut : List ℚ
  lineSides : List ℤ
  lineVertexColors : List ℚ
  detailX : ℕ
  detailY : ℕ
  dirtyFlags : List String
deriving DecidableEq, Repr

namespace Geometry

/-- `Geometry.prototype.reset`: clears the line buffers and the raw mesh
arrays in place (note that the source does *not* touch `this.faces`). -/
def reset (g : Geometry) : Geometry :=
  { g with
    lineVertices := []
    lineTangentsIn := []
    lineTangentsOut := []
    lineSides := []
    vertices := []
    edges := []
    vertexColors := []
    vertexStrokeColors := []
    lineVertexColors := []
    vertexNormals := []
    uvs := []
    dirtyFlags := [] }

/-- The two triangles `computeFaces` pushes for grid cell `(i, j)`:
`[a, b, d]` then `[d, b, c]` with `a = i*stride + j`, `b = a + 1`,
`c = (i+1)*stride + j + 1`, `d = (i+1)*stride + j`, `stride = detailX + 1`. -/
def cellFaces (detailX : ℕ) (i j : ℕ) : List (ℕ × ℕ × ℕ) :=
  [ (i * (detailX + 1) + j, (i * (detailX + 1) + j + 1, (i + 1) * (detailX + 1) + j)),
    ((i + 1) * (detailX + 1) + j, (i * (detailX + 1) + j + 1, (i + 1) * (detailX + 1) + j + 1)) ]

/-- `Geometry.prototype.computeFaces`: replaces `this.faces` with the
row-major grid triangulation determined by `detailX`/`detailY`. -/
def computeFaces (g : Geometry) : Geometry :=
  { g with
    faces :=
      (List.range g.detailY).flatMap fun i =>
        (List.range g.detailX).flatMap fun j => cellFaces g.detailX i j }

/-- `Geometry.prototype._getFaceNormal`, with the transcendental weight
abstracted.  The source computes `sinAlpha = |n| / (|ab|·|ac|)` and branches on
`sinAlpha === 0 || isNaN(sinAlpha)`; in exact arithmetic `sinAlpha = 0` is
`magSq n = 0` (given a nonzero denominator) and the NaN case (`0/0`) is a zero
denominator, i.e. `magSq ab * magSq ac = 0`.  In the degenerate branch the raw
cross product `n` is returned after a non-fatal `console.warn`; otherwise the
source returns `n.mult(asin(min(sinAlpha,1))/|n|)`, an irrational positive
factor that no verified claim depends on, abstracted here as
`asinw (magSq n) (magSq ab * magSq ac)`. -/
def getFaceNormal (asinw : ℚ → ℚ → ℚ) (g : Geometry) (faceId : ℕ) : Vec3 :=
  let face := g.faces.getD faceId (0, 0, 0)
  let vA := g.vertices.getD face.1 Vec3.zero
  let vB := g.vertices.getD face.2.1 Vec3.zero
  let vC := g.vertices.getD face.2.2 Vec3.zero
  let ab := Vec3.sub vB vA
  let ac := Vec3.sub vC vA
  let n := Vec3.cross ab ac
  if Vec3.magSq n = 0 ∨ Vec3.magSq ab * Vec3.magSq ac = 0 then n
  else Vec3.smul (asinw (Vec3.magSq n) (Vec3.magSq ab * Vec3.magSq ac)) n

/-- Adds a face's normal contribution to the accumulators of its three
vertices (`vertexNormals[face[fv]].add(faceNormal)` for `fv = 0, 1, 2`). -/
def addFaceContribution (ns : List Vec3) (face : ℕ × ℕ × ℕ) (c : Vec3) : List Vec3 :=
  let ns1 := ns.set face.1 (Vec3.add (ns.getD face.1 Vec3.zero) c)
  let ns2 := ns1.set face.2.1 (Vec3.add (ns1.getD face.2.1 Vec3.zero) c)
  ns2.set face.2.2 (Vec3.add (ns2.getD face.2.2 Vec3.zero) c)

/-- The per-vertex normal accumulators after the face loop of
`computeNormals`, before the final normalization pass. -/
def accumNormals (asinw : ℚ → ℚ → ℚ) (g : Geometry) : List Vec3 :=
  (List.range g.faces.length).foldl
    (fun ns f => addFaceContribution ns (g.faces.getD f (0, 0, 0)) (getFaceNormal asinw g f))
    (List.replicate g.vertices.length Vec3.zero)

/-- `p5.Vector.prototype.normalize` applied to an accumulated normal: the
source guards with `if (len !== 0)`, so the zero vector is left untouched and
a nonzero vector is scaled by `1/len`.  The irrational factor `1/len` is
abstracted as `unitize v`; the zero-vector guard is kept exactly. -/
def vnormalize (unitize : Vec3 → ℚ) (v : Vec3) : Vec3 :=
  if Vec3.magSq v = 0 then v else Vec3.smul (unitize v) v

/-- `Geometry.prototype.computeNormals`: re-initializes the accumulators,
adds every face's contribution to its three vertices, then normalizes every
accumulated vertex normal. -/
def computeNormals (asinw : ℚ → ℚ → ℚ) (unitize : Vec3 → ℚ) (g : Geometry) : Geometry :=
  { g with vertexNormals := (accumNormals asinw g).map (vnormalize unitize) }

/-- Component-wise maximum, as computed by the `Math.max` loop in
`Geometry.prototype.normalize`. -/
def vmax (a b : Vec3) : Vec3 := ⟨max a.x b.x, max a.y b.y, max a.z b.z⟩

/-- Component-wise minimum. -/
def vmin (a b : Vec3) : Vec3 := ⟨min a.x b.x, min a.y b.y, min a.z b.z⟩

/-- `p5.Vector.lerp a b t = a + (b - a) * t`. -/
def vlerp (a b : Vec3) (t : ℚ) : Vec3 := Vec3.add a (Vec3.smul t (Vec3.sub b a))

/-- The running bounding-box maximum of `normalize`: starts from a copy of
`vertices[0]` and folds `Math.max` over every vertex (including index 0). -/
def bbMax (l : List Vec3) : Vec3 :=
  match l with
  | [] => Vec3.zero
  | v0 :: _ => l.foldl vmax v0

/-- The running bounding-box minimum of `normalize`. -/
def bbMin (l : List Vec3) : Vec3 :=
  match l with
  | [] => Vec3.zero
  | v0 :: _ => l.foldl vmin v0

/-- The bounding-box center `p5.Vector.lerp(maxPosition, minPosition, 0.5)`. -/
def bbCenter (l : List Vec3) : Vec3 := vlerp (bbMax l) (bbMin l) (1 / 2)

/-- The longest bounding-box dimension
`Math.max(Math.max(dist.x, dist.y), dist.z)` with `dist = max - min`. -/
def bbLongest (l : List Vec3) : ℚ :=
  let dist := Vec3.sub (bbMax l) (bbMin l)
  max (max dist.x dist.y) dist.z

/-- `Geometry.prototype.normalize`: on a non-empty vertex list, translates
every vertex by the bounding-box center and scales by `200 / longestDist`
(each vertex becomes `(v - center) * scale`); on an empty list, does
nothing.  (When `longestDist = 0` the source computes `200/0 = Infinity` and
the products become NaN; the rational model yields scale `0` there — both
differ from any finite nonzero target, and no confirmed theorem below
touches that case.) -/
def normalize (g : Geometry) : Geometry :=
  match g.vertices with
  | [] => g
  | _ :: _ =>
    let center := bbCenter g.vertices
    let scale := 200 / bbLongest g.vertices
    { g with vertices := g.vertices.map fun v => Vec3.smul scale (Vec3.sub v center) }

end Geometry

/-- A pending potential-cap record of `_edgesToVertices`: anchor point,
outward tangent (direction representative) and RGBA color. -/
structure CapRec where
  point : Vec3
  dir : Vec3
  color : List ℚ
deriving DecidableEq, Repr

/-- Lookup in the insertion-ordered model of the JavaScript `Map`. -/
def mapGet (m : List (ℕ × CapRec)) (k : ℕ) : Option CapRec :=
  (m.find? fun p => p.1 == k).map fun p => p.2

/-- `Map.set`: updates in place if the key exists (keeping its position),
otherwise appends at the end. -/
def mapSet (m : List (ℕ × CapRec)) (k : ℕ) (v : CapRec) : List (ℕ × CapRec) :=
  if (m.find? fun p => p.1 == k).isSome then
    m.map fun p => if p.1 == k then (k, v) else p
  else m ++ [(k, v)]

/-- `Map.delete`. -/
def mapDelete (m : List (ℕ × CapRec)) (k : ℕ) : List (ℕ × CapRec) :=
  m.filter fun p => p.1 != k

/-- `Set.add` (only membership is ever observed). -/
def setAdd (l : List ℕ) (k : ℕ) : List ℕ :=
  if l.contains k then l else l ++ [k]

/-- The mutable state threaded through `_edgesToVertices`: the five stroke
buffers plus the reconciliation state (`potentialCaps`, `connected`,
`lastValidDir`). -/
structure LineState where
  lineVertices : List ℚ
  lineTangentsIn : List ℚ
  lineTangentsOut : List ℚ
  lineSides : List ℤ
  lineVertexColors : List ℚ
  potentialCaps : List (ℕ × CapRec)
  connected : List ℕ
  lastValidDir : Option Vec3
deriving DecidableEq, Repr

/-- `n` flat copies of a list (the effect of a `for`-loop pushing the same
array `n` times into a `p5.DataArray`). -/
def repFlat (n : ℕ) (l : List ℚ) : List ℚ :=
  match n with
  | 0 => []
  | n + 1 => l ++ repFlat n l

/-- `Geometry.prototype._addSegment`: 6 vertices (two triangles) forming the
segment rectangle, side codes `1,1,-1,1,-1,-1`, both tangents equal to
`dir`, positions `begin,end,begin,end,end,begin`, colors in the matching
`from/to` pattern. -/
def addSegment (s : LineState) (beginPt endPt : Vec3) (fromColor toColor : List ℚ)
    (dir : Vec3) : LineState :=
  { s with
    lineSides := s.lineSides ++ [1, 1, -1, 1, -1, -1]
    lineTangentsIn := s.lineTangentsIn ++ repFlat 6 dir.arr
    lineTangentsOut := s.lineTangentsOut ++ repFlat 6 dir.arr
    lineVertices := s.lineVertices ++
      (beginPt.arr ++ endPt.arr ++ beginPt.arr ++ endPt.arr ++ endPt.arr ++ beginPt.arr)
    lineVertexColors := s.lineVertexColors ++
      (fromColor ++ toColor ++ fromColor ++ toColor ++ toColor ++ fromColor) }

/-- `Geometry.prototype._addCap`: 6 vertices at the cap's anchor point,
tangent-in equal to the cap tangent, tangent-out the zero vector, side codes
`-1,2,-2,1,2,-1`. -/
def addCap (s : LineState) (point tangent : Vec3) (color : List ℚ) : LineState :=
  { s with
    lineVertices := s.lineVertices ++ repFlat 6 point.arr
    lineTangentsIn := s.lineTangentsIn ++ repFlat 6 tangent.arr
    lineTangentsOut := s.lineTangentsOut ++ repFlat 6 [0, 0, 0]
    lineVertexColors := s.lineVertexColors ++ repFlat 6 color
    lineSides := s.lineSides ++ [-1, 2, -2, 1, 2, -1] }

/-- `Geometry.prototype._addJoin`: 12 vertices at the shared point,
tangent-in `fromTangent`, tangent-out `toTangent`, side codes
`-1,-3,-2,-1,0,-3` followed by `3,1,2,3,0,1`. -/
def addJoin (s : LineState) (point fromTangent toTangent : Vec3) (color : List ℚ) : LineState :=
  { s with
    lineVertices := s.lineVertices ++ repFlat 12 point.arr
    lineTangentsIn := s.lineTangentsIn ++ repFlat 12 fromTangent.arr
    lineTangentsOut := s.lineTangentsOut ++ repFlat 12 toTangent.arr
    lineVertexColors := s.lineVertexColors ++ repFlat 12 color
    lineSides := s.lineSides ++ [-1, -3, -2, -1, 0, -3] ++ [3, 1, 2, 3, 0, 1] }

/-- The side codes a join emission appends, as one list. -/
def joinSides : List ℤ := [-1, -3, -2, -1, 0, -3] ++ [3, 1, 2, 3, 0, 1]

/-- The side codes a segment emission appends. -/
def segSides : List ℤ := [1, 1, -1, 1, -1, -1]

/-- The side codes a cap emission appends. -/
def capSides : List ℤ := [-1, 2, -2, 1, 2, -1]

/-- `this.edges[i]` (edge list access; the loop only runs in range). -/
def currEdgeAt (g : Geometry) (i : ℕ) : ℕ × ℕ := g.edges.getD i (0, 0)

/-- `this.edges[i - 1]`, which in JavaScript is `undefined` at `i = 0`. -/
def prevEdgeAt (g : Geometry) (i : ℕ) : Option (ℕ × ℕ) :=
  if i = 0 then none else g.edges.get? (i - 1)

/-- The position of the current edge's begin vertex. -/
def edgeBeginPt (g : Geometry) (i : ℕ) : Vec3 :=
  g.vertices.getD (currEdgeAt g i).1 Vec3.zero

/-- The position of the current edge's end vertex. -/
def edgeEndPt (g : Geometry) (i : ℕ) : Vec3 :=
  g.vertices.getD (currEdgeAt g i).2 Vec3.zero

/-- The direction representative of `end.copy().sub(begin).normalize()`:
the unnormalized difference (zero exactly when the normalized direction is
zero, and determining the same unit vector otherwise). -/
def edgeDir (g : Geometry) (i : ℕ) : Vec3 :=
  Vec3.sub (edgeEndPt g i) (edgeBeginPt g i)

/-- `fromColor`: 4 RGBA components sliced from `vertexStrokeColors`, or
`[0,0,0,0]` when that array is empty. -/
def edgeFromColor (g : Geometry) (i : ℕ) : List ℚ :=
  if 0 < g.vertexStrokeColors.length then
    (g.vertexStrokeColors.drop (4 * (currEdgeAt g i).1)).take 4
  else [0, 0, 0, 0]

/-- `toColor`, analogously for the edge's end vertex. -/
def edgeToColor (g : Geometry) (i : ℕ) : List ℚ :=
  if 0 < g.vertexStrokeColors.length then
    (g.vertexStrokeColors.drop (4 * (currEdgeAt g i).2)).take 4
  else [0, 0, 0, 0]

/-- The join trigger `dir.dot(lastValidDir) < 1 - 1e-8`, evaluated on unit
vectors in the source, expressed scale-invariantly on direction
representatives `v, w`: for nonzero `v, w`, `v̂·ŵ < c` with `c = 1 - 1e-8 > 0`
holds iff `v·w < 0` or `(v·w)² < c² (|v|²|w|²)` (squaring both nonnegative
sides of `v·w < c·|v||w|`). -/
def dotBelowCut (v w : Vec3) : Prop :=
  Vec3.dot v w < 0 ∨
    (Vec3.dot v w) ^ 2 < (1 - 1 / 100000000) ^ 2 * (Vec3.magSq v * Vec3.magSq w)

instance (v w : Vec3) : Decidable (dotBelowCut v w) := by
  unfold dotBelowCut; infer_instance

/-- Step 2 of the edge loop: emit the segment rectangle when the segment is
non-degenerate (`dir.magSq() > 0`). -/
def segStep (g : Geometry) (i : ℕ) (s : LineState) : LineState :=
  if 0 < (edgeDir g i).magSq then
    addSegment s (edgeBeginPt g i) (edgeEndPt g i) (edgeFromColor g i) (edgeToColor g i)
      (edgeDir g i)
  else s

/-- Step 3 (continuity): the current edge starts at the previous edge's end.
If that vertex is not yet connected, mark it connected, drop any pending cap
there, and emit a join exactly when both tangents are valid and their dot
product is below the collinearity cutoff. -/
def contJoinStep (g : Geometry) (i : ℕ) (s : LineState) : LineState :=
  if s.connected.contains (currEdgeAt g i).1 = false then
    let s1 := { s with
      connected := setAdd s.connected (currEdgeAt g i).1
      potentialCaps := mapDelete s.potentialCaps (currEdgeAt g i).1 }
    match s.lastValidDir with
    | some lv =>
      if 0 < (edgeDir g i).magSq ∧ dotBelowCut (edgeDir g i) lv then
        addJoin s1 (edgeBeginPt g i) lv (edgeDir g i) (edgeFromColor g i)
      else s1
    | none => s1
  else s

/-- Step 4, first half (discontinuity): resolve the current edge's start
vertex — join against an existing potential cap, or register a new one with
the negated direction. -/
def discontBeginStep (g : Geometry) (i : ℕ) (s : LineState) : LineState :=
  if 0 < (edgeDir g i).magSq ∧ s.connected.contains (currEdgeAt g i).1 = false then
    match mapGet s.potentialCaps (currEdgeAt g i).1 with
    | some cap =>
      { addJoin s (edgeBeginPt g i) cap.dir (edgeDir g i) (edgeFromColor g i) with
        potentialCaps := mapDelete s.potentialCaps (currEdgeAt g i).1
        connected := setAdd s.connected (currEdgeAt g i).1 }
    | none =>
      { s with
        potentialCaps := mapSet s.potentialCaps (currEdgeAt g i).1
          ⟨edgeBeginPt g i, Vec3.neg (edgeDir g i), edgeFromColor g i⟩ }
  else s

/-- Step 4, second half (discontinuity): resolve the previous edge's end
vertex when a valid tangent is pending, then clear `lastValidDir`. -/
def discontPrevStep (g : Geometry) (i : ℕ) (prevEdge : ℕ × ℕ) (s : LineState) : LineState :=
  match s.lastValidDir with
  | none => s
  | some lv =>
    if s.connected.contains prevEdge.2 = false then
      let base :=
        match mapGet s.potentialCaps prevEdge.2 with
        | some cap =>
          { addJoin s (g.vertices.getD prevEdge.2 Vec3.zero) lv (Vec3.neg cap.dir)
              (edgeFromColor g i) with
            potentialCaps := mapDelete s.potentialCaps prevEdge.2
            connected := setAdd s.connected prevEdge.2 }
        | none =>
          { s with
            potentialCaps := mapSet s.potentialCaps prevEdge.2
              ⟨g.vertices.getD prevEdge.2 Vec3.zero, lv, edgeFromColor g i⟩ }
      { base with lastValidDir := none }
    else s

/-- Steps 3–4 dispatch: continuity when the current edge starts at the
previous edge's end, otherwise the two discontinuity resolutions in
sequence. -/
def connectStep (g : Geometry) (i : ℕ) (s : LineState) : LineState :=
  match prevEdgeAt g i with
  | some prevEdge =>
    if prevEdge.2 = (currEdgeAt g i).1 then contJoinStep g i s
    else discontPrevStep g i prevEdge (discontBeginStep g i s)
  | none => discontBeginStep g i s

/-- Step 5: on the last edge, finalize its end vertex (join against a
pending cap, or register a potential cap with the outgoing tangent). -/
def lastEdgeStep (g : Geometry) (i : ℕ) (s : LineState) : LineState :=
  if i = g.edges.length - 1 ∧ s.connected.contains (currEdgeAt g i).2 = false then
    match mapGet s.potentialCaps (currEdgeAt g i).2 with
    | some cap =>
      { addJoin s (edgeEndPt g i) (edgeDir g i) (Vec3.neg cap.dir) (edgeToColor g i) with
        potentialCaps := mapDelete s.potentialCaps (currEdgeAt g i).2
        connected := setAdd s.connected (currEdgeAt g i).2 }
    | none =>
      { s with
        potentialCaps := mapSet s.potentialCaps (currEdgeAt g i).2
          ⟨edgeEndPt g i, edgeDir g i, edgeToColor g i⟩ }
  else s

/-- Step 6: `lastValidDir` is updated to `dir` only for a non-degenerate
segment. -/
def dirStep (g : Geometry) (i : ℕ) (s : LineState) : LineState :=
  if 0 < (edgeDir g i).magSq then { s with lastValidDir := some (edgeDir g i) } else s

/-- One full iteration of the `_edgesToVertices` edge loop. -/
def processEdge (g : Geometry) (i : ℕ) (s : LineState) : LineState :=
  dirStep g i (lastEdgeStep g i (connectStep g i (segStep g i s)))

/-- The starting state of `_edgesToVertices`: the four cleared buffers (the
source does not clear `lineVertexColors`), no pending caps, no connected
vertices, no valid tangent. -/
def initLineState (g : Geometry) : LineState :=
  { lineVertices := []
    lineTangentsIn := []
    lineTangentsOut := []
    lineSides := []
    lineVertexColors := g.lineVertexColors
    potentialCaps := []
    connected := []
    lastValidDir := none }

/-- The state after the full `_edgesToVertices` pass: the edge loop followed
by finalizing every remaining potential cap, in map insertion order. -/
def strokeState (g : Geometry) : LineState :=
  let afterEdges :=
    (List.range g.edges.length).foldl (fun s i => processEdge g i s) (initLineState g)
  afterEdges.potentialCaps.foldl (fun s kc => addCap s kc.2.point kc.2.dir kc.2.color)
    afterEdges

/-- `Geometry.prototype._edgesToVertices`: writes the resulting stroke
buffers back into the geometry. -/
def edgesToVertices (g : Geometry) : Geometry :=
  let s := strokeState g
  { g with
    lineVertices := s.lineVertices
    lineTangentsIn := s.lineTangentsIn
    lineTangentsOut := s.lineTangentsOut
    lineSides := s.lineSides
    lineVertexColors := s.lineVertexColors }

/-- `p5.RendererGL.prototype.tessyVertexSize`: the fixed per-vertex attribute
tuple width of the polygon tessellator. -/
def tessyVertexSize : ℕ := 12

/-- The inner `j`-loop of `combinecallback`:
`result[j] += data[i][j] * weight[i]` for every slot of `result` (the
contributing tuple is indexed positionally; callers always pass tuples of the
full `tessyVertexSize` width, which the theorem below assumes nothing
about — shorter data would read `0` here where JavaScript reads
`undefined`). -/
def addWeighted (w : ℚ) (d result : List ℚ) : List ℚ :=
  match result with
  | [] => []
  | r :: rs => (r + d.headD 0 * w) :: addWeighted w d.tail rs

/-- `combinecallback(coords, data, weight)` from `_initTessy`: starts from a
12-slot zero tuple and, for each contributing index `i` below
`weight.length`, skips the contribution when `weight[i] === 0` or `data[i]`
is absent and otherwise adds `data[i][j] * weight[i]` slot-wise.  The
`coords` argument is accepted and unused, as in the source. -/
def combinecallback (_coords : List ℚ) (data : List (Option (List ℚ)))
    (weight : List ℚ) : List ℚ :=
  (List.range weight.length).foldl
    (fun result i =>
      match data.getD i none with
      | none => result
      | some d =>
        if weight.getD i 0 = 0 then result
        else addWeighted (weight.getD i 0) d result)
    (List.replicate tessyVertexSize 0)

/-- Modelled from the spec: `GeometryBuilder` (from `./GeometryBuilder`, not
under `src/`) collects the shapes drawn between `beginGeometry()` and
`endGeometry()`; only its presence and its `finish()` output matter to the
begin/end protocol verified here. -/
structure GeometryBuilder where
  output : Geometry
deriving DecidableEq, Repr

/-- The empty geometry, as produced by `new p5.Geometry()` (constructor with
both detail arguments defaulted to 1). -/
def emptyGeometry : Geometry :=
  { vertices := []
    vertexNormals := []
    faces := []
    uvs := []
    edges := []
    vertexColors := []
    vertexStrokeColors := []
    lineVertices := []
    lineTangentsIn := []
    lineTangentsOut := []
    lineSides := []
    lineVertexColors := []
    detailX := 1
    detailY := 1
    dirtyFlags := [] }

/-- The slice of `p5.RendererGL` state the begin/end-geometry protocol
touches. -/
structure RendererGL where
  geometryBuilder : Option GeometryBuilder
deriving DecidableEq, Repr

/-- The error message thrown by `beginGeometry()` when a build is in flight. -/
def beginGeometryMsg : String :=
  "It looks like `beginGeometry()` is being called while another p5.Geometry is already being build."

/-- The error message thrown by `endGeometry()` without a matching begin. -/
def endGeometryMsg : String :=
  "Make sure you call beginGeometry() before endGeometry()!"

/-- `p5.RendererGL.prototype.beginGeometry`: throws if a geometry build is
already in flight, otherwise installs a fresh builder. -/
def beginGeometry (r : RendererGL) : Except String RendererGL :=
  match r.geometryBuilder with
  | some _ => Except.error beginGeometryMsg
  | none => Except.ok { r with geometryBuilder := some ⟨emptyGeometry⟩ }

/-- `p5.RendererGL.prototype.endGeometry`: throws if no geometry build is in
flight, otherwise finishes the builder, clears it and returns the built
geometry. -/
def endGeometry (r : RendererGL) : Except String (Geometry × RendererGL) :=
  match r.geometryBuilder with
  | none => Except.error endGeometryMsg
  | some b => Except.ok (b.output, { r with geometryBuilder := none })

/-! ### Concrete example inputs used by witnesses and counterexamples -/

/-- A zero weight standing in for the abstracted `asin(sinAlpha)/ln` factor
(all theorems about it are universally quantified). -/
def aw0 : ℚ → ℚ → ℚ := fun _ _ => 0

/-- A zero factor standing in for the abstracted `1/‖v‖`. -/
def uz0 : Vec3 → ℚ := fun _ => 0

/-- A geometry carrying one face, to exercise `reset`. -/
def gFacesEx : Geometry := { emptyGeometry with faces := [(0, 1, 2)] }

/-- A 2×3 grid geometry for `computeFaces`. -/
def gGrid : Geometry := { emptyGeometry with detailX := 2, detailY := 3 }

/-- A single-vertex geometry (degenerate bounding box). -/
def gSingle : Geometry := { emptyGeometry with vertices := [⟨1, 2, 3⟩] }

/-- A two-vertex geometry whose longest bounding-box dimension is 4. -/
def gTwo : Geometry := { emptyGeometry with vertices := [⟨0, 0, 0⟩, ⟨1, 2, 4⟩] }

/-- A geometry with one degenerate (colinear) face and one vertex that
belongs to no face. -/
def gNorm : Geometry :=
  { emptyGeometry with
    vertices := [⟨0, 0, 0⟩, ⟨1, 0, 0⟩, ⟨2, 0, 0⟩, ⟨5, 5, 5⟩]
    faces := [(0, 1, 2)] }

/-- A 3-point right-angle polyline (bend at vertex 1). -/
def gBend : Geometry :=
  { emptyGeometry with
    vertices := [⟨0, 0, 0⟩, ⟨1, 0, 0⟩, ⟨1, 1, 0⟩]
    edges := [(0, 1), (1, 2)] }

/-- A 3-point collinear polyline with matching edge directions. -/
def gStraight : Geometry :=
  { emptyGeometry with
    vertices := [⟨0, 0, 0⟩, ⟨1, 0, 0⟩, ⟨2, 0, 0⟩]
    edges := [(0, 1), (1, 2)] }

/-- A single non-degenerate edge. -/
def gSeg : Geometry :=
  { emptyGeometry with
    vertices := [⟨0, 0, 0⟩, ⟨3, 0, 4⟩]
    edges := [(0, 1)] }

/-- A polyline followed by a zero-length edge at a *discontinuity* (edge 1
starts a new line and is degenerate). -/
def gZeroDisc : Geometry :=
  { emptyGeometry with
    vertices := [⟨0, 0, 0⟩, ⟨1, 0, 0⟩, ⟨5, 5, 0⟩]
    edges := [(0, 1), (2, 2)] }

/-- A polyline followed by a zero-length *continuing* edge. -/
def gZeroCont : Geometry :=
  { emptyGeometry with
    vertices := [⟨0, 0, 0⟩, ⟨1, 0, 0⟩]
    edges := [(0, 1), (1, 1)] }

/-- The contribution of index `i` to slot `j` of the combined tuple:
zero when the weight is zero or the data entry is absent, otherwise
`weight[i] * data[i][j]`. -/
def combineContrib (data : List (Option (List ℚ))) (weight : List ℚ) (j i : ℕ) : ℚ :=
  match data.getD i none with
  | none => 0
  | some d => if weight.getD i 0 = 0 then 0 else weight.getD i 0 * d.getD j 0

/-- The invariant carried through the stroke pass when the per-vertex
stroke-color array is empty: every color component emitted past the
initial `n0` entries is `0`, four color components exist per emitted
vertex (one side-code entry each), and every pending cap record carries the
default color `[0,0,0,0]`. -/
def zeroColorInv (n0 : ℕ) (s : LineState) : Prop :=
  (∀ c ∈ s.lineVertexColors.drop n0, c = 0) ∧
  s.lineVertexColors.length = n0 + 4 * s.lineSides.length ∧
  ∀ kc ∈ s.potentialCaps, kc.2.color = [(0 : ℚ), 0, 0, 0]

/-! ### Helper lemmas -/

theorem getD_of_getElem? {α : Type} (l : List α) (n : ℕ) (a d : α)
    (h : l[n]? = some a) : l.getD n d = a := by
  rw [List.getD_eq_getElem?_getD, h]; rfl

theorem flatMap_blocks_length {α : Type} (B : ℕ → List α) (L : ℕ)
    (hB : ∀ k, (B k).length = L) :
    ∀ n str, ((List.range' str n).flatMap B).length = n * L := by
  intro n
  induction n with
  | zero => intro str; simp
  | succ m ih =>
    intro str
    rw [List.range'_succ, List.flatMap_cons, List.length_append, hB, ih]
    ring

theorem flatMap_blocks_getElem {α : Type} (B : ℕ → List α) (L : ℕ)
    (hB : ∀ k, (B k).length = L) :
    ∀ n str i r, i < n → r < L →
      ((List.range' str n).flatMap B)[i * L + r]? = (B (str + i))[r]? := by
  intro n
  induction n with
  | zero => intro str i r hi _; exact absurd hi (Nat.not_lt_zero i)
  | succ m ih =>
    intro str i r hi hr
    rw [List.range'_succ, List.flatMap_cons]
    cases i with
    | zero =>
      rw [List.getElem?_append_left (by rw [hB]; simpa using hr)]
      simp
    | succ j =>
      rw [List.getElem?_append_right (by rw [hB]; nlinarith)]
      have harith : (j + 1) * L + r - (B str).length = j * L + r := by
        rw [hB]; ring_nf; omega
      rw [harith, ih (str + 1) j r (by omega) hr]
      congr 2
      omega

/-! ### Claim C3 (corrected): `reset` -/

/-- Claim C3, counterexample to the claim as stated: `reset()` does *not*
empty `this.faces` — on a geometry whose face list is `[(0,1,2)]`, the face
list after `reset()` is still `[(0,1,2)]`, not `[]`. -/
theorem reset_keeps_faces_counterexample :
    (Geometry.reset gFacesEx).faces = [(0, 1, 2)] ∧
      (Geometry.reset gFacesEx).faces ≠ [] := by
  constructor
  · rfl
  · decide

/-- Claim C3 as amended: `reset()` empties every owned array *except*
`faces` — vertex positions, normals, uvs, edges, fill colors, stroke colors
and all derived stroke buffers become empty and the dirty-flag set is
cleared, while `faces`, `detailX` and `detailY` are left unchanged. -/
theorem reset_clears_all_but_faces (g : Geometry) :
    (Geometry.reset g).vertices = [] ∧
    (Geometry.reset g).vertexNormals = [] ∧
    (Geometry.reset g).uvs = [] ∧
    (Geometry.reset g).edges = [] ∧
    (Geometry.reset g).vertexColors = [] ∧
    (Geometry.reset g).vertexStrokeColors = [] ∧
    (Geometry.reset g).lineVertices = [] ∧
    (Geometry.reset g).lineTangentsIn = [] ∧
    (Geometry.reset g).lineTangentsOut = [] ∧
    (Geometry.reset g).lineSides = [] ∧
    (Geometry.reset g).lineVertexColors = [] ∧
    (Geometry.reset g).dirtyFlags = [] ∧
    (Geometry.reset g).faces = g.faces ∧
    (Geometry.reset g).detailX = g.detailX ∧
    (Geometry.reset g).detailY = g.detailY := by
  refine ⟨rfl, rfl, rfl, rfl, rfl, rfl, rfl, rfl, rfl, rfl, rfl, rfl, rfl, rfl, rfl⟩

/-! ### Claim C8: begin/end geometry protocol -/

/-- Claim C8: `endGeometry()` with no build in flight fails with the
descriptive (non-empty) error message, and `beginGeometry()` while a build
is in flight fails with its descriptive message; neither is a silent no-op
(both return `Except.error`, never `Except.ok`). -/
theorem beginEndGeometryErrors (r : RendererGL) :
    (r.geometryBuilder = none →
      endGeometry r = Except.error endGeometryMsg ∧ endGeometryMsg ≠ "") ∧
    (∀ b, r.geometryBuilder = some b →
      beginGeometry r = Except.error beginGeometryMsg ∧ beginGeometryMsg ≠ "") := by
  constructor
  · intro h
    refine ⟨?_, by decide⟩
    unfold endGeometry
    rw [h]
  · intro b h
    refine ⟨?_, by decide⟩
    unfold beginGeometry
    rw [h]

/-- Claim C8, witness: at the concrete renderer states with no builder and
with a builder in flight, the two calls return the two error values. -/
theorem beginEndGeometryErrorsWitness :
    endGeometry ⟨none⟩ = Except.error endGeometryMsg ∧
      beginGeometry ⟨some ⟨emptyGeometry⟩⟩ = Except.error beginGeometryMsg :=
  ⟨((beginEndGeometryErrors ⟨none⟩).1 rfl).1,
   ((beginEndGeometryErrors ⟨some ⟨emptyGeometry⟩⟩).2 ⟨emptyGeometry⟩ rfl).1⟩

/-! ### Claim C4: `computeFaces` -/

theorem cellFaces_length (dX i j : ℕ) : (Geometry.cellFaces dX i j).length = 2 := rfl

theorem rowFaces_length (dX i : ℕ) :
    ((List.range dX).flatMap fun j => Geometry.cellFaces dX i j).length = dX * 2 := by
  rw [List.range_eq_range']
  exact flatMap_blocks_length (fun j => Geometry.cellFaces dX i j) 2 (fun _ => rfl) dX 0

/-- Claim C4: for all detail values, `computeFaces` produces exactly
`2·detailX·detailY` faces, every vertex index in a face lies below
`(detailX+1)·(detailY+1)`, cell `(i,j)` contributes the triangles `[a,b,d]`
and `[d,b,c]` (`a = i*stride+j`, `b = a+1`, `c = (i+1)*stride+j+1`,
`d = (i+1)*stride+j`, `stride = detailX+1`) at positions `2*(i*detailX+j)`
and `2*(i*detailX+j)+1`, and the previously stored face list is fully
replaced (the output never depends on it). -/
theorem computeFacesSpec (g : Geometry) :
    (g.computeFaces).faces.length = 2 * g.detailX * g.detailY ∧
    (∀ t ∈ (g.computeFaces).faces,
      t.1 < (g.detailX + 1) * (g.detailY + 1) ∧
      t.2.1 < (g.detailX + 1) * (g.detailY + 1) ∧
      t.2.2 < (g.detailX + 1) * (g.detailY + 1)) ∧
    (∀ i j, i < g.detailY → j < g.detailX →
      (g.computeFaces).faces[2 * (i * g.detailX + j)]? =
        some (i * (g.detailX + 1) + j,
          (i * (g.detailX + 1) + j + 1, (i + 1) * (g.detailX + 1) + j)) ∧
      (g.computeFaces).faces[2 * (i * g.detailX + j) + 1]? =
        some ((i + 1) * (g.detailX + 1) + j,
          (i * (g.detailX + 1) + j + 1, (i + 1) * (g.detailX + 1) + j + 1))) ∧
    (∀ F, (Geometry.computeFaces { g with faces := F }).faces = (g.computeFaces).faces) := by
  refine ⟨?_, ?_, ?_, fun F => rfl⟩
  · show ((List.range g.detailY).flatMap fun i =>
      (List.range g.detailX).flatMap fun j => Geometry.cellFaces g.detailX i j).length = _
    rw [List.range_eq_range',
      flatMap_blocks_length _ (g.detailX * 2) (fun i => rowFaces_length g.detailX i) g.detailY 0]
    ring
  · intro t ht
    have ht' : t ∈ (List.range g.detailY).flatMap fun i =>
        (List.range g.detailX).flatMap fun j => Geometry.cellFaces g.detailX i j := ht
    rw [List.mem_flatMap] at ht'
    obtain ⟨i, hi, hti⟩ := ht'
    rw [List.mem_flatMap] at hti
    obtain ⟨j, hj, htj⟩ := hti
    rw [List.mem_range] at hi hj
    have hprod : (i + 1) * (g.detailX + 1) ≤ g.detailY * (g.detailX + 1) :=
      Nat.mul_le_mul_right _ (by omega)
    have hexp1 : (i + 1) * (g.detailX + 1) = i * (g.detailX + 1) + g.detailX + 1 := by ring
    have hexp2 : (g.detailX + 1) * (g.detailY + 1) =
        g.detailY * (g.detailX + 1) + g.detailX + 1 := by ring
    rcases List.mem_pair.mp htj with rfl | rfl <;>
      exact ⟨by dsimp only; omega, by dsimp only; omega, by dsimp only; omega⟩
  · intro i j hi hj
    have hrow : ∀ k, (((List.range g.detailX).flatMap
        fun j => Geometry.cellFaces g.detailX k j)).length = g.detailX * 2 :=
      fun k => rowFaces_length g.detailX k
    have houter : ∀ r, r < g.detailX * 2 →
        ((g.computeFaces).faces)[i * (g.detailX * 2) + r]? =
          ((List.range g.detailX).flatMap fun j => Geometry.cellFaces g.detailX i j)[r]? := by
      intro r hr
      show (((List.range g.detailY).flatMap fun k =>
        (List.range g.detailX).flatMap fun j => Geometry.cellFaces g.detailX k j))[
          i * (g.detailX * 2) + r]? = _
      rw [List.range_eq_range',
        flatMap_blocks_getElem _ (g.detailX * 2) (fun k => hrow k) g.detailY 0 i r hi hr]
      rw [Nat.zero_add]
    have hinner0 : ((List.range g.detailX).flatMap
        fun j' => Geometry.cellFaces g.detailX i j')[j * 2]? =
          (Geometry.cellFaces g.detailX i j)[0]? := by
      rw [List.range_eq_range']
      have := flatMap_blocks_getElem (fun j' => Geometry.cellFaces g.detailX i j') 2
        (fun _ => rfl) g.detailX 0 j 0 hj (by omega)
      simpa using this
    have hinner1 : ((List.range g.detailX).flatMap
        fun j' => Geometry.cellFaces g.detailX i j')[j * 2 + 1]? =
          (Geometry.cellFaces g.detailX i j)[1]? := by
      rw [List.range_eq_range']
      have := flatMap_blocks_getElem (fun j' => Geometry.cellFaces g.detailX i j') 2
        (fun _ => rfl) g.detailX 0 j 1 hj (by omega)
      simpa using this
    constructor
    · have h0 := houter (j * 2) (by omega)
      have harith : 2 * (i * g.detailX + j) = i * (g.detailX * 2) + j * 2 := by ring
      rw [harith, h0, hinner0]
      rfl
    · have h1 := houter (j * 2 + 1) (by omega)
      have harith : 2 * (i * g.detailX + j) + 1 = i * (g.detailX * 2) + (j * 2 + 1) := by ring
      rw [harith, h1, hinner1]
      rfl

/-- Claim C4, witness: on a 2×3 grid the face list has the predicted length
12 and cell `(1,0)` contributes `[3,4,6]` and `[6,4,7]` at positions 4
and 5. -/
theorem computeFacesSpecWitness :
    (Geometry.computeFaces gGrid).faces.length = 12 ∧
      (Geometry.computeFaces gGrid).faces[4]? = some (3, (4, 6)) ∧
      (Geometry.computeFaces gGrid).faces[5]? = some (6, (4, 7)) := by
  have h := computeFacesSpec gGrid
  have hcell := h.2.2.1 1 0 (by decide) (by decide)
  exact ⟨h.1.trans (by decide), hcell.1, hcell.2⟩

/-! ### Claim C7: `combinecallback` -/

theorem addWeighted_length (w : ℚ) (d r : List ℚ) :
    (addWeighted w d r).length = r.length := by
  induction r generalizing d with
  | nil => rfl
  | cons hd tl ih => simp [addWeighted, ih]

theorem tail_getD (d : List ℚ) (j : ℕ) : d.tail.getD j 0 = d.getD (j + 1) 0 := by
  cases d <;> rfl

theorem headD_eq_getD (d : List ℚ) : d.headD 0 = d.getD 0 0 := by
  cases d <;> rfl

theorem addWeighted_getD (w : ℚ) (d r : List ℚ) :
    ∀ j, j < r.length →
      (addWeighted w d r).getD j 0 = r.getD j 0 + d.getD j 0 * w := by
  induction r generalizing d with
  | nil => intro j hj; exact absurd hj (by simp)
  | cons hd tl ih =>
    intro j hj
    cases j with
    | zero => simp only [addWeighted, List.getD_cons_zero, headD_eq_getD]
    | succ k =>
      have := ih d.tail k (by simpa using hj)
      simpa [addWeighted, tail_getD] using this

theorem combine_foldl_spec (data : List (Option (List ℚ))) (weight : List ℚ) :
    ∀ (is : List ℕ) (init : List ℚ),
      ((is.foldl (fun result i =>
          match data.getD i none with
          | none => result
          | some d =>
            if weight.getD i 0 = 0 then result
            else addWeighted (weight.getD i 0) d result) init).length = init.length) ∧
      (∀ j, j < init.length →
        (is.foldl (fun result i =>
          match data.getD i none with
          | none => result
          | some d =>
            if weight.getD i 0 = 0 then result
            else addWeighted (weight.getD i 0) d result) init).getD j 0 =
        init.getD j 0 + (is.map (combineContrib data weight j)).sum) := by
  intro is
  induction is with
  | nil => intro init; exact ⟨rfl, by simp⟩
  | cons i rest ih =>
    intro init
    have hstep : ∀ init' : List ℚ,
        ((match data.getD i none with
          | none => init'
          | some d =>
            if weight.getD i 0 = 0 then init'
            else addWeighted (weight.getD i 0) d init').length = init'.length) ∧
        (∀ j, j < init'.length →
          (match data.getD i none with
          | none => init'
          | some d =>
            if weight.getD i 0 = 0 then init'
            else addWeighted (weight.getD i 0) d init').getD j 0 =
          init'.getD j 0 + combineContrib data weight j i) := by
      intro init'
      unfold combineContrib
      cases hd : data.getD i none with
      | none => exact ⟨rfl, fun j _ => by simp⟩
      | some d =>
        by_cases hw : weight.getD i 0 = 0
        · simp only [hw, if_pos rfl]
          exact ⟨rfl, fun j _ => by simp⟩
        · simp only [if_neg hw]
          exact ⟨addWeighted_length _ _ _, fun j hj => by
            rw [addWeighted_getD _ _ _ j hj]; ring⟩
    constructor
    · rw [List.foldl_cons, (ih _).1, (hstep init).1]
    · intro j hj
      rw [List.foldl_cons, List.map_cons, List.sum_cons]
      have hlen : (match data.getD i none with
          | none => init
          | some d =>
            if weight.getD i 0 = 0 then init
            else addWeighted (weight.getD i 0) d init).length = init.length :=
        (hstep init).1
      rw [(ih _).2 j (by rw [hlen]; exact hj), (hstep init).2 j hj]
      ring

/-- Claim C7: the tuple produced by the sweep's combine event has the full
fixed width (`tessyVertexSize = 12` slots), and each slot `j` is the sum
over contributing indices `i` of `weight[i] * data[i][j]`, where an index
with zero weight or absent data contributes nothing. -/
theorem combinecallbackSpec (coords : List ℚ) (data : List (Option (List ℚ)))
    (weight : List ℚ) :
    (combinecallback coords data weight).length = tessyVertexSize ∧
    (∀ j, j < tessyVertexSize →
      (combinecallback coords data weight).getD j 0 =
        ((List.range weight.length).map (combineContrib data weight j)).sum) := by
  unfold combinecallback
  have h := combine_foldl_spec data weight (List.range weight.length)
    (List.replicate tessyVertexSize 0)
  refine ⟨h.1.trans (by simp), fun j hj => ?_⟩
  rw [h.2 j (by simpa using hj)]
  have hrep : (List.replicate tessyVertexSize (0 : ℚ)).getD j 0 = 0 := by
    rw [List.getD_eq_getElem?_getD, List.getElem?_replicate]
    split <;> rfl
  rw [hrep, zero_add]

/-- Claim C7, witness: a concrete combine event with four weights, one
absent data entry and one zero weight; slot 0 receives exactly the weighted
sum of the two surviving contributions and the tuple has width 12. -/
theorem combinecallbackSpecWitness :
    (combinecallback [] [some [6, 1, 1, 1, 1, 1, 1, 1, 1, 1, 1, 1], none,
        some [100, 2, 2, 2, 2, 2, 2, 2, 2, 2, 2, 2],
        some [8, 3, 3, 3, 3, 3, 3, 3, 3, 3, 3, 3]]
      [(1 : ℚ) / 2, 1 / 4, 0, 1 / 4]).length = 12 ∧
    (combinecallback [] [some [6, 1, 1, 1, 1, 1, 1, 1, 1, 1, 1, 1], none,
        some [100, 2, 2, 2, 2, 2, 2, 2, 2, 2, 2, 2],
        some [8, 3, 3, 3, 3, 3, 3, 3, 3, 3, 3, 3]]
      [(1 : ℚ) / 2, 1 / 4, 0, 1 / 4]).getD 0 0 = 5 := by
  have h := combinecallbackSpec []
    [some [6, 1, 1, 1, 1, 1, 1, 1, 1, 1, 1, 1], none,
      some [100, 2, 2, 2, 2, 2, 2, 2, 2, 2, 2, 2],
      some [8, 3, 3, 3, 3, 3, 3, 3, 3, 3, 3, 3]]
    [(1 : ℚ) / 2, 1 / 4, 0, 1 / 4]
  refine ⟨h.1.trans rfl, (h.2 0 (by decide)).trans ?_⟩
  norm_num [combineContrib, List.range_succ]

/-! ### Claim C6: degenerate faces and zero normals in `computeNormals` -/

theorem vec_sub_self (v : Vec3) : Vec3.sub v v = Vec3.zero := by
  cases v
  simp only [Vec3.sub, Vec3.zero, Vec3.mk.injEq]
  exact ⟨by ring, by ring, by ring⟩

theorem cross_self_vec (v : Vec3) : Vec3.cross v v = Vec3.zero := by
  cases v
  simp only [Vec3.cross, Vec3.zero, Vec3.mk.injEq]
  exact ⟨by ring, by ring, by ring⟩

theorem cross_zero_left (v : Vec3) : Vec3.cross Vec3.zero v = Vec3.zero := by
  cases v
  simp only [Vec3.cross, Vec3.zero, Vec3.mk.injEq]
  exact ⟨by ring, by ring, by ring⟩

theorem cross_zero_right (v : Vec3) : Vec3.cross v Vec3.zero = Vec3.zero := by
  cases v
  simp only [Vec3.cross, Vec3.zero, Vec3.mk.injEq]
  exact ⟨by ring, by ring, by ring⟩

theorem cross_smul_left (t : ℚ) (v : Vec3) :
    Vec3.cross (Vec3.smul t v) v = Vec3.zero := by
  cases v
  simp only [Vec3.cross, Vec3.smul, Vec3.zero, Vec3.mk.injEq]
  exact ⟨by ring, by ring, by ring⟩

theorem cross_smul_right (t : ℚ) (v : Vec3) :
    Vec3.cross v (Vec3.smul t v) = Vec3.zero := by
  cases v
  simp only [Vec3.cross, Vec3.smul, Vec3.zero, Vec3.mk.injEq]
  exact ⟨by ring, by ring, by ring⟩

/-- A face with a repeated vertex or colinear sides has zero cross
product. -/
theorem cross_degenerate {vA vB vC : Vec3}
    (h : vA = vB ∨ vB = vC ∨ vA = vC ∨
      ∃ t : ℚ, Vec3.sub vB vA = Vec3.smul t (Vec3.sub vC vA) ∨
        Vec3.sub vC vA = Vec3.smul t (Vec3.sub vB vA)) :
    Vec3.cross (Vec3.sub vB vA) (Vec3.sub vC vA) = Vec3.zero := by
  obtain h | h | h | ⟨t, h | h⟩ := h
  · rw [← h, vec_sub_self]
    exact cross_zero_left _
  · rw [h, cross_self_vec]
  · rw [← h, vec_sub_self]
    exact cross_zero_right _
  · rw [h]
    exact cross_smul_left _ _
  · rw [h]
    exact cross_smul_right _ _

/-- Claim C6: normal computation never fails on degenerate input.  A face
with a repeated vertex or colinear sides contributes the raw unnormalized
cross product `(B-A)×(C-A)` (the branch that in the source follows a
non-fatal `console.warn`), and a vertex whose accumulated normal is the
zero vector is left as the zero vector by the final normalization pass
(never divided by zero).  Both parts hold for every choice of the
abstracted transcendental factors. -/
theorem computeNormalsDegenerateSafe (asinw : ℚ → ℚ → ℚ) (unitize : Vec3 → ℚ)
    (g : Geometry) :
    (∀ f vA vB vC,
      vA = g.vertices.getD (g.faces.getD f (0, 0, 0)).1 Vec3.zero →
      vB = g.vertices.getD (g.faces.getD f (0, 0, 0)).2.1 Vec3.zero →
      vC = g.vertices.getD (g.faces.getD f (0, 0, 0)).2.2 Vec3.zero →
      (vA = vB ∨ vB = vC ∨ vA = vC ∨
        ∃ t : ℚ, Vec3.sub vB vA = Vec3.smul t (Vec3.sub vC vA) ∨
          Vec3.sub vC vA = Vec3.smul t (Vec3.sub vB vA)) →
      Geometry.getFaceNormal asinw g f = Vec3.cross (Vec3.sub vB vA) (Vec3.sub vC vA)) ∧
    (∀ iv : ℕ, (Geometry.accumNormals asinw g)[iv]? = some Vec3.zero →
      (Geometry.computeNormals asinw unitize g).vertexNormals[iv]? = some Vec3.zero) := by
  constructor
  · intro f vA vB vC hA hB hC hdeg
    subst hA; subst hB; subst hC
    have hcross := cross_degenerate hdeg
    simp only [Geometry.getFaceNormal]
    rw [if_pos (Or.inl ((Vec3.magSq_eq_zero_iff _).mpr hcross))]
  · intro iv hacc
    show ((Geometry.accumNormals asinw g).map (Geometry.vnormalize unitize))[iv]? = some Vec3.zero
    rw [List.getElem?_map, hacc, Option.map_some']
    have : Geometry.vnormalize unitize Vec3.zero = Vec3.zero := by
      unfold Geometry.vnormalize
      rw [if_pos (by norm_num [Vec3.magSq, Vec3.zero])]
    rw [this]

/-- Claim C6, witness: on a colinear face `(0,1,2)` of `gNorm` the face
normal contribution is the raw cross product, and vertex 3 (in no face, so
with zero accumulated normal) keeps the zero normal. -/
theorem computeNormalsDegenerateSafeWitness :
    Geometry.getFaceNormal aw0 gNorm 0 =
      Vec3.cross (Vec3.sub ⟨1, 0, 0⟩ ⟨0, 0, 0⟩) (Vec3.sub ⟨2, 0, 0⟩ ⟨0, 0, 0⟩) ∧
    (Geometry.computeNormals aw0 uz0 gNorm).vertexNormals[3]? = some Vec3.zero := by
  have h := computeNormalsDegenerateSafe aw0 uz0 gNorm
  constructor
  · exact h.1 0 ⟨0, 0, 0⟩ ⟨1, 0, 0⟩ ⟨2, 0, 0⟩ rfl rfl rfl
      (Or.inr (Or.inr (Or.inr ⟨1 / 2, Or.inl (by
        simp only [Vec3.sub, Vec3.smul, Vec3.mk.injEq]
        norm_num)⟩)))
  · refine h.2 3 ?_
    simp only [Geometry.accumNormals, gNorm, emptyGeometry]
    norm_num [List.range_succ, Geometry.addFaceContribution, Geometry.getFaceNormal,
      Vec3.cross, Vec3.sub, Vec3.magSq, Vec3.add, Vec3.zero]

/-! ### Claim C5: `normalize` -/

theorem q_smul_sub_max (s c p q : ℚ) (hs : 0 ≤ s) :
    s * (max p q - c) = max (s * (p - c)) (s * (q - c)) := by
  rcases le_total p q with h | h
  · rw [max_eq_right h, max_eq_right (by nlinarith)]
  · rw [max_eq_left h, max_eq_left (by nlinarith)]

theorem q_smul_sub_min (s c p q : ℚ) (hs : 0 ≤ s) :
    s * (min p q - c) = min (s * (p - c)) (s * (q - c)) := by
  rcases le_total p q with h | h
  · rw [min_eq_left h, min_eq_left (by nlinarith)]
  · rw [min_eq_right h, min_eq_right (by nlinarith)]

theorem q_smul_max (s a b : ℚ) (hs : 0 ≤ s) :
    max (s * a) (s * b) = s * max a b := by
  rcases le_total a b with h | h
  · rw [max_eq_right h, max_eq_right (by nlinarith)]
  · rw [max_eq_left h, max_eq_left (by nlinarith)]

theorem foldl_vmax_map (F : Vec3 → Vec3)
    (hF : ∀ p q, F (Geometry.vmax p q) = Geometry.vmax (F p) (F q)) :
    ∀ (l : List Vec3) (a : Vec3),
      (l.map F).foldl Geometry.vmax (F a) = F (l.foldl Geometry.vmax a) := by
  intro l
  induction l with
  | nil => intro a; rfl
  | cons v tl ih =>
    intro a
    show (tl.map F).foldl Geometry.vmax (Geometry.vmax (F a) (F v)) = _
    rw [← hF, ih (Geometry.vmax a v)]
    rfl

theorem foldl_vmin_map (F : Vec3 → Vec3)
    (hF : ∀ p q, F (Geometry.vmin p q) = Geometry.vmin (F p) (F q)) :
    ∀ (l : List Vec3) (a : Vec3),
      (l.map F).foldl Geometry.vmin (F a) = F (l.foldl Geometry.vmin a) := by
  intro l
  induction l with
  | nil => intro a; rfl
  | cons v tl ih =>
    intro a
    show (tl.map F).foldl Geometry.vmin (Geometry.vmin (F a) (F v)) = _
    rw [← hF, ih (Geometry.vmin a v)]
    rfl

theorem affine_vmax (s : ℚ) (c : Vec3) (hs : 0 ≤ s) (p q : Vec3) :
    Vec3.smul s (Vec3.sub (Geometry.vmax p q) c) =
      Geometry.vmax (Vec3.smul s (Vec3.sub p c)) (Vec3.smul s (Vec3.sub q c)) := by
  cases p; cases q; cases c
  simp only [Geometry.vmax, Vec3.smul, Vec3.sub, Vec3.mk.injEq]
  exact ⟨q_smul_sub_max _ _ _ _ hs, q_smul_sub_max _ _ _ _ hs, q_smul_sub_max _ _ _ _ hs⟩

theorem affine_vmin (s : ℚ) (c : Vec3) (hs : 0 ≤ s) (p q : Vec3) :
    Vec3.smul s (Vec3.sub (Geometry.vmin p q) c) =
      Geometry.vmin (Vec3.smul s (Vec3.sub p c)) (Vec3.smul s (Vec3.sub q c)) := by
  cases p; cases q; cases c
  simp only [Geometry.vmin, Vec3.smul, Vec3.sub, Vec3.mk.injEq]
  exact ⟨q_smul_sub_min _ _ _ _ hs, q_smul_sub_min _ _ _ _ hs, q_smul_sub_min _ _ _ _ hs⟩

theorem bbMax_map_affine (s : ℚ) (c : Vec3) (hs : 0 ≤ s) (v0 : Vec3) (rest : List Vec3) :
    Geometry.bbMax ((v0 :: rest).map fun v => Vec3.smul s (Vec3.sub v c)) =
      Vec3.smul s (Vec3.sub (Geometry.bbMax (v0 :: rest)) c) := by
  show ((v0 :: rest).map fun v => Vec3.smul s (Vec3.sub v c)).foldl Geometry.vmax
      (Vec3.smul s (Vec3.sub v0 c)) = _
  exact foldl_vmax_map (fun v => Vec3.smul s (Vec3.sub v c)) (affine_vmax s c hs)
    (v0 :: rest) v0

theorem bbMin_map_affine (s : ℚ) (c : Vec3) (hs : 0 ≤ s) (v0 : Vec3) (rest : List Vec3) :
    Geometry.bbMin ((v0 :: rest).map fun v => Vec3.smul s (Vec3.sub v c)) =
      Vec3.smul s (Vec3.sub (Geometry.bbMin (v0 :: rest)) c) := by
  show ((v0 :: rest).map fun v => Vec3.smul s (Vec3.sub v c)).foldl Geometry.vmin
      (Vec3.smul s (Vec3.sub v0 c)) = _
  exact foldl_vmin_map (fun v => Vec3.smul s (Vec3.sub v c)) (affine_vmin s c hs)
    (v0 :: rest) v0

theorem vlerp_affine_center (s : ℚ) (M m : Vec3) :
    Geometry.vlerp
      (Vec3.smul s (Vec3.sub M (Geometry.vlerp M m (1 / 2))))
      (Vec3.smul s (Vec3.sub m (Geometry.vlerp M m (1 / 2)))) (1 / 2) = Vec3.zero := by
  cases M; cases m
  simp only [Geometry.vlerp, Vec3.smul, Vec3.sub, Vec3.add, Vec3.zero, Vec3.mk.injEq]
  exact ⟨by ring, by ring, by ring⟩

theorem smul_sub_sub (s : ℚ) (C M m : Vec3) :
    Vec3.sub (Vec3.smul s (Vec3.sub M C)) (Vec3.smul s (Vec3.sub m C)) =
      Vec3.smul s (Vec3.sub M m) := by
  cases M; cases m; cases C
  simp only [Vec3.smul, Vec3.sub, Vec3.mk.injEq]
  exact ⟨by ring, by ring, by ring⟩

/-- Claim C5 as amended: on a non-empty vertex set whose bounding box has a
*positive* longest dimension, `normalize()` recenters the bounding box at
the origin and rescales its longest dimension to exactly 200; on an empty
vertex set it changes nothing.  (The claim as stated fails when all
vertices coincide, where the longest dimension is 0 — see the
counterexample.) -/
theorem normalizeSpec (g : Geometry) :
    (∀ v0 rest, g.vertices = v0 :: rest → 0 < Geometry.bbLongest g.vertices →
      Geometry.bbCenter (g.normalize).vertices = Vec3.zero ∧
      Geometry.bbLongest (g.normalize).vertices = 200) ∧
    (g.vertices = [] → g.normalize = g) := by
  constructor
  · intro v0 rest hv hpos
    rw [hv] at hpos
    have hL : Geometry.bbLongest (v0 :: rest) ≠ 0 := ne_of_gt hpos
    have hs : 0 ≤ 200 / Geometry.bbLongest (v0 :: rest) :=
      le_of_lt (div_pos (by norm_num) hpos)
    have hverts : (g.normalize).vertices =
        (v0 :: rest).map fun v =>
          Vec3.smul (200 / Geometry.bbLongest (v0 :: rest))
            (Vec3.sub v (Geometry.bbCenter (v0 :: rest))) := by
      simp only [Geometry.normalize, hv]
    have hmax := bbMax_map_affine (200 / Geometry.bbLongest (v0 :: rest))
      (Geometry.bbCenter (v0 :: rest)) hs v0 rest
    have hmin := bbMin_map_affine (200 / Geometry.bbLongest (v0 :: rest))
      (Geometry.bbCenter (v0 :: rest)) hs v0 rest
    constructor
    · show Geometry.vlerp (Geometry.bbMax (g.normalize).vertices)
        (Geometry.bbMin (g.normalize).vertices) (1 / 2) = Vec3.zero
      rw [hverts, hmax, hmin]
      exact vlerp_affine_center _ _ _
    · show max (max (Vec3.sub (Geometry.bbMax (g.normalize).vertices)
          (Geometry.bbMin (g.normalize).vertices)).x
          (Vec3.sub (Geometry.bbMax (g.normalize).vertices)
          (Geometry.bbMin (g.normalize).vertices)).y)
          (Vec3.sub (Geometry.bbMax (g.normalize).vertices)
          (Geometry.bbMin (g.normalize).vertices)).z = 200
      rw [hverts, hmax, hmin, smul_sub_sub]
      have hsx : ∀ w : Vec3, (Vec3.smul (200 / Geometry.bbLongest (v0 :: rest)) w).x =
          200 / Geometry.bbLongest (v0 :: rest) * w.x := fun _ => rfl
      have hsy : ∀ w : Vec3, (Vec3.smul (200 / Geometry.bbLongest (v0 :: rest)) w).y =
          200 / Geometry.bbLongest (v0 :: rest) * w.y := fun _ => rfl
      have hsz : ∀ w : Vec3, (Vec3.smul (200 / Geometry.bbLongest (v0 :: rest)) w).z =
          200 / Geometry.bbLongest (v0 :: rest) * w.z := fun _ => rfl
      rw [hsx, hsy, hsz, q_smul_max _ _ _ hs, q_smul_max _ _ _ hs]
      exact div_mul_cancel₀ 200 hL
  · intro hv
    simp only [Geometry.normalize, hv]

/-- Claim C5, counterexample to the claim as stated: a non-empty vertex set
consisting of a single vertex has a degenerate (zero-size) bounding box,
and after `normalize()` its longest dimension is not 200 (the source
computes `200/0 = Infinity` and produces NaN vertices there; the rational
model scales by zero — in both cases the claimed `longest = 200` fails). -/
theorem normalizeSingleCounterexample :
    gSingle.vertices ≠ [] ∧
      Geometry.bbLongest (Geometry.normalize gSingle).vertices ≠ 200 := by
  constructor
  · simp [gSingle, emptyGeometry]
  · norm_num [gSingle, emptyGeometry, Geometry.normalize, Geometry.bbLongest,
      Geometry.bbMax, Geometry.bbMin, Geometry.bbCenter, Geometry.vlerp,
      Geometry.vmax, Geometry.vmin, Vec3.smul, Vec3.sub, Vec3.add]

/-- Claim C5, witness: the two-vertex geometry `gTwo` (longest dimension 4)
is recentered at the origin with longest dimension exactly 200. -/
theorem normalizeSpecWitness :
    Geometry.bbCenter (Geometry.normalize gTwo).vertices = Vec3.zero ∧
      Geometry.bbLongest (Geometry.normalize gTwo).vertices = 200 := by
  refine (normalizeSpec gTwo).1 ⟨0, 0, 0⟩ [⟨1, 2, 4⟩] rfl ?_
  norm_num [gTwo, emptyGeometry, Geometry.bbLongest, Geometry.bbMax, Geometry.bbMin,
    Geometry.vmax, Geometry.vmin, Vec3.sub]

/-! ### Stroke-pipeline step lemmas -/

theorem segStep_connected (g : Geometry) (i : ℕ) (s : LineState) :
    (segStep g i s).connected = s.connected := by
  unfold segStep; split <;> rfl

theorem segStep_potentialCaps (g : Geometry) (i : ℕ) (s : LineState) :
    (segStep g i s).potentialCaps = s.potentialCaps := by
  unfold segStep; split <;> rfl

theorem segStep_lastValidDir (g : Geometry) (i : ℕ) (s : LineState) :
    (segStep g i s).lastValidDir = s.lastValidDir := by
  unfold segStep; split <;> rfl

theorem segStep_lineSides (g : Geometry) (i : ℕ) (s : LineState) :
    (segStep g i s).lineSides =
      s.lineSides ++ (if 0 < (edgeDir g i).magSq then segSides else []) := by
  unfold segStep addSegment
  split
  · rfl
  · rw [List.append_nil]

theorem segStep_lineVertices (g : Geometry) (i : ℕ) (s : LineState) :
    (segStep g i s).lineVertices =
      s.lineVertices ++
        (if 0 < (edgeDir g i).magSq then
          (edgeBeginPt g i).arr ++ (edgeEndPt g i).arr ++ (edgeBeginPt g i).arr ++
            (edgeEndPt g i).arr ++ (edgeEndPt g i).arr ++ (edgeBeginPt g i).arr
         else []) := by
  unfold segStep addSegment
  split
  · simp only [List.append_assoc]
  · rw [List.append_nil]

theorem dirStep_lineSides (g : Geometry) (i : ℕ) (s : LineState) :
    (dirStep g i s).lineSides = s.lineSides := by
  unfold dirStep; split <;> rfl

theorem dirStep_lineVertices (g : Geometry) (i : ℕ) (s : LineState) :
    (dirStep g i s).lineVertices = s.lineVertices := by
  unfold dirStep; split <;> rfl

theorem lastEdgeStep_buffers (g : Geometry) (i : ℕ) (s : LineState)
    (h : i = g.edges.length - 1 →
      (s.connected.contains (currEdgeAt g i).2 = true ∨
        mapGet s.potentialCaps (currEdgeAt g i).2 = none)) :
    (lastEdgeStep g i s).lineSides = s.lineSides ∧
    (lastEdgeStep g i s).lineVertices = s.lineVertices := by
  unfold lastEdgeStep
  by_cases hc : i = g.edges.length - 1 ∧ s.connected.contains (currEdgeAt g i).2 = false
  · obtain h1 | h2 := h hc.1
    · rw [h1] at hc
      exact absurd hc.2 (by simp)
    · rw [if_pos hc, h2]
      exact ⟨rfl, rfl⟩
  · rw [if_neg hc]
    exact ⟨rfl, rfl⟩

/-! ### Claim C1: joins at shared vertices -/

/-- Claim C1: when edge `k+1` starts at the end vertex of edge `k` and that
shared vertex is not yet connected (and, if this is the last edge, its end
vertex does not itself resolve a pending cap into a join), the buffers grow
by the segment emission and then by a join of exactly 12 vertices at the
shared point *iff* `lastValidDir` is valid, the current direction is valid,
and their dot product is below the `1 - 1e-8` collinearity cutoff; the
join's side codes are exactly `-1,-3,-2,-1,0,-3,3,1,2,3,0,1`.  In
particular, collinear edges with matching directions (dot product 1) emit
no join vertices at the shared point. -/
theorem strokeJoinIffBend (g : Geometry) (k : ℕ) (s : LineState) (ep ec : ℕ × ℕ)
    (hep : g.edges[k]? = some ep) (hec : g.edges[k + 1]? = some ec)
    (hcont : ep.2 = ec.1) (hnc : s.connected.contains ec.1 = false)
    (hlast : k + 1 = g.edges.length - 1 →
      ((setAdd s.connected ec.1).contains ec.2 = true ∨
        mapGet (mapDelete s.potentialCaps ec.1) ec.2 = none)) :
    (processEdge g (k + 1) s).lineSides =
      s.lineSides ++
        (if 0 < (edgeDir g (k + 1)).magSq then segSides else []) ++
        (match s.lastValidDir with
         | none => []
         | some lv =>
           if 0 < (edgeDir g (k + 1)).magSq ∧ dotBelowCut (edgeDir g (k + 1)) lv then
             joinSides
           else []) ∧
    (processEdge g (k + 1) s).lineVertices =
      s.lineVertices ++
        (if 0 < (edgeDir g (k + 1)).magSq then
          (edgeBeginPt g (k + 1)).arr ++ (edgeEndPt g (k + 1)).arr ++
            (edgeBeginPt g (k + 1)).arr ++ (edgeEndPt g (k + 1)).arr ++
            (edgeEndPt g (k + 1)).arr ++ (edgeBeginPt g (k + 1)).arr
         else []) ++
        (match s.lastValidDir with
         | none => []
         | some lv =>
           if 0 < (edgeDir g (k + 1)).magSq ∧ dotBelowCut (edgeDir g (k + 1)) lv then
             repFlat 12 (edgeBeginPt g (k + 1)).arr
           else []) := by
  have hcurr : currEdgeAt g (k + 1) = ec := by
    unfold currEdgeAt
    exact getD_of_getElem? _ _ _ _ hec
  have hprev : prevEdgeAt g (k + 1) = some ep := by
    unfold prevEdgeAt
    rw [if_neg (Nat.succ_ne_zero k)]
    simpa using hep
  -- the dispatch lands in the continuation branch
  have hconnect : connectStep g (k + 1) (segStep g (k + 1) s) =
      contJoinStep g (k + 1) (segStep g (k + 1) s) := by
    unfold connectStep
    rw [hprev]
    have heq : ep.2 = (currEdgeAt g (k + 1)).1 := by rw [hcurr]; exact hcont
    dsimp only
    rw [if_pos heq]
  -- characterize the continuation step on the post-segment state
  have hnc1 : (segStep g (k + 1) s).connected.contains (currEdgeAt g (k + 1)).1 = false := by
    rw [segStep_connected, hcurr]
    exact hnc
  set s1 := segStep g (k + 1) s with hs1def
  have hlv1 : s1.lastValidDir = s.lastValidDir := segStep_lastValidDir g (k + 1) s
  have hcap1 : s1.potentialCaps = s.potentialCaps := segStep_potentialCaps g (k + 1) s
  have hcon1 : s1.connected = s.connected := segStep_connected g (k + 1) s
  -- state after the continuation step, by cases on the join condition
  have hcont2 : ∃ s2, contJoinStep g (k + 1) s1 = s2 ∧
      s2.connected = setAdd s.connected ec.1 ∧
      s2.potentialCaps = mapDelete s.potentialCaps ec.1 ∧
      s2.lineSides = s1.lineSides ++
        (match s.lastValidDir with
         | none => []
         | some lv =>
           if 0 < (edgeDir g (k + 1)).magSq ∧ dotBelowCut (edgeDir g (k + 1)) lv then
             joinSides
           else []) ∧
      s2.lineVertices = s1.lineVertices ++
        (match s.lastValidDir with
         | none => []
         | some lv =>
           if 0 < (edgeDir g (k + 1)).magSq ∧ dotBelowCut (edgeDir g (k + 1)) lv then
             repFlat 12 (edgeBeginPt g (k + 1)).arr
           else []) := by
    unfold contJoinStep
    rw [if_pos hnc1, hlv1, hcap1, hcon1, hcurr]
    cases hlv : s.lastValidDir with
    | none =>
      dsimp only
      exact ⟨_, rfl, rfl, rfl, by rw [List.append_nil], by rw [List.append_nil]⟩
    | some lv =>
      dsimp only
      by_cases hjc : 0 < (edgeDir g (k + 1)).magSq ∧ dotBelowCut (edgeDir g (k + 1)) lv
      · simp only [if_pos hjc]
        refine ⟨_, rfl, rfl, rfl, ?_, ?_⟩
        · show s1.lineSides ++ [-1, -3, -2, -1, 0, -3] ++ [3, 1, 2, 3, 0, 1] =
            s1.lineSides ++ joinSides
          simp only [joinSides, List.append_assoc]
        · rfl
      · simp only [if_neg hjc]
        exact ⟨_, rfl, rfl, rfl, by rw [List.append_nil], by rw [List.append_nil]⟩
  obtain ⟨s2, hs2, hs2conn, hs2caps, hs2sides, hs2verts⟩ := hcont2
  -- the last-edge check emits nothing under `hlast`
  have hlast2 : (k + 1) = g.edges.length - 1 →
      (s2.connected.contains (currEdgeAt g (k + 1)).2 = true ∨
        mapGet s2.potentialCaps (currEdgeAt g (k + 1)).2 = none) := by
    intro hl
    rw [hs2conn, hs2caps, hcurr]
    exact hlast hl
  have hle := lastEdgeStep_buffers g (k + 1) s2 hlast2
  unfold processEdge
  rw [hconnect, hs2, dirStep_lineSides, dirStep_lineVertices, hle.1, hle.2,
    hs2sides, hs2verts, hs1def, segStep_lineSides, segStep_lineVertices]
  exact ⟨by simp only [List.append_assoc], by simp only [List.append_assoc]⟩

/-- Claim C1, witness: on the right-angle polyline `gBend` the continuing
edge 1 emits the segment and then exactly the 12-vertex join with side
codes `-1,-3,-2,-1,0,-3,3,1,2,3,0,1` at the shared point `(1,0,0)`, while
on the collinear polyline `gStraight` (dot product 1) edge 1 emits only the
segment and no join vertices at the middle point. -/
theorem strokeJoinIffBendWitness :
    ((processEdge gBend 1 (processEdge gBend 0 (initLineState gBend))).lineSides =
        (processEdge gBend 0 (initLineState gBend)).lineSides ++ segSides ++ joinSides ∧
      (processEdge gBend 1 (processEdge gBend 0 (initLineState gBend))).lineVertices =
        (processEdge gBend 0 (initLineState gBend)).lineVertices ++
          ((1 : ℚ) :: 0 :: 0 :: [1, 1, 0] ++ [1, 0, 0] ++ [1, 1, 0] ++ [1, 1, 0] ++ [1, 0, 0]) ++
          repFlat 12 [1, 0, 0]) ∧
    (processEdge gStraight 1 (processEdge gStraight 0 (initLineState gStraight))).lineSides =
      (processEdge gStraight 0 (initLineState gStraight)).lineSides ++ segSides := by
  have hlvB : (processEdge gBend 0 (initLineState gBend)).lastValidDir = some ⟨1, 0, 0⟩ := by
    norm_num [processEdge, segStep, connectStep, contJoinStep, discontBeginStep,
      discontPrevStep, lastEdgeStep, dirStep, currEdgeAt, prevEdgeAt, edgeBeginPt,
      edgeEndPt, edgeDir, edgeFromColor, edgeToColor, addSegment, addJoin,
      mapGet, mapSet, mapDelete, setAdd, initLineState, gBend, emptyGeometry,
      Vec3.sub, Vec3.magSq, Vec3.neg, Vec3.smul, Vec3.dot, Vec3.arr, repFlat,
      dotBelowCut, List.find?]
  have hconnB : (processEdge gBend 0 (initLineState gBend)).connected = [] := by
    norm_num [processEdge, segStep, connectStep, contJoinStep, discontBeginStep,
      discontPrevStep, lastEdgeStep, dirStep, currEdgeAt, prevEdgeAt, edgeBeginPt,
      edgeEndPt, edgeDir, edgeFromColor, edgeToColor, addSegment, addJoin,
      mapGet, mapSet, mapDelete, setAdd, initLineState, gBend, emptyGeometry,
      Vec3.sub, Vec3.magSq, Vec3.neg, Vec3.smul, Vec3.dot, Vec3.arr, repFlat,
      dotBelowCut, List.find?]
  have hcapsB : (processEdge gBend 0 (initLineState gBend)).potentialCaps =
      [(0, ⟨⟨0, 0, 0⟩, ⟨-1, 0, 0⟩, [0, 0, 0, 0]⟩)] := by
    norm_num [processEdge, segStep, connectStep, contJoinStep, discontBeginStep,
      discontPrevStep, lastEdgeStep, dirStep, currEdgeAt, prevEdgeAt, edgeBeginPt,
      edgeEndPt, edgeDir, edgeFromColor, edgeToColor, addSegment, addJoin,
      mapGet, mapSet, mapDelete, setAdd, initLineState, gBend, emptyGeometry,
      Vec3.sub, Vec3.magSq, Vec3.neg, Vec3.smul, Vec3.dot, Vec3.arr, repFlat,
      dotBelowCut, List.find?]
  have hdirB : edgeDir gBend 1 = ⟨0, 1, 0⟩ := by
    norm_num [edgeDir, edgeBeginPt, edgeEndPt, currEdgeAt, gBend, emptyGeometry, Vec3.sub]
  have hokB : 0 < Vec3.magSq ⟨0, 1, 0⟩ := by norm_num [Vec3.magSq]
  have hdotB : dotBelowCut ⟨0, 1, 0⟩ ⟨1, 0, 0⟩ :=
    Or.inr (by norm_num [Vec3.dot, Vec3.magSq])
  obtain ⟨h1, h2⟩ := strokeJoinIffBend gBend 0 (processEdge gBend 0 (initLineState gBend))
    (0, 1) (1, 2) rfl rfl rfl (by rw [hconnB]; rfl)
    (fun _ => Or.inr (by rw [hcapsB]; rfl))
  rw [hlvB, hdirB] at h1 h2
  dsimp only at h1 h2
  rw [if_pos hokB, if_pos ⟨hokB, hdotB⟩] at h1 h2
  -- the collinear configuration
  have hlvS : (processEdge gStraight 0 (initLineState gStraight)).lastValidDir =
      some ⟨1, 0, 0⟩ := by
    norm_num [processEdge, segStep, connectStep, contJoinStep, discontBeginStep,
      discontPrevStep, lastEdgeStep, dirStep, currEdgeAt, prevEdgeAt, edgeBeginPt,
      edgeEndPt, edgeDir, edgeFromColor, edgeToColor, addSegment, addJoin,
      mapGet, mapSet, mapDelete, setAdd, initLineState, gStraight, emptyGeometry,
      Vec3.sub, Vec3.magSq, Vec3.neg, Vec3.smul, Vec3.dot, Vec3.arr, repFlat,
      dotBelowCut, List.find?]
  have hconnS : (processEdge gStraight 0 (initLineState gStraight)).connected = [] := by
    norm_num [processEdge, segStep, connectStep, contJoinStep, discontBeginStep,
      discontPrevStep, lastEdgeStep, dirStep, currEdgeAt, prevEdgeAt, edgeBeginPt,
      edgeEndPt, edgeDir, edgeFromColor, edgeToColor, addSegment, addJoin,
      mapGet, mapSet, mapDelete, setAdd, initLineState, gStraight, emptyGeometry,
      Vec3.sub, Vec3.magSq, Vec3.neg, Vec3.smul, Vec3.dot, Vec3.arr, repFlat,
      dotBelowCut, List.find?]
  have hcapsS : (processEdge gStraight 0 (initLineState gStraight)).potentialCaps =
      [(0, ⟨⟨0, 0, 0⟩, ⟨-1, 0, 0⟩, [0, 0, 0, 0]⟩)] := by
    norm_num [processEdge, segStep, connectStep, contJoinStep, discontBeginStep,
      discontPrevStep, lastEdgeStep, dirStep, currEdgeAt, prevEdgeAt, edgeBeginPt,
      edgeEndPt, edgeDir, edgeFromColor, edgeToColor, addSegment, addJoin,
      mapGet, mapSet, mapDelete, setAdd, initLineState, gStraight, emptyGeometry,
      Vec3.sub, Vec3.magSq, Vec3.neg, Vec3.smul, Vec3.dot, Vec3.arr, repFlat,
      dotBelowCut, List.find?]
  have hdirS : edgeDir gStraight 1 = ⟨1, 0, 0⟩ := by
    norm_num [edgeDir, edgeBeginPt, edgeEndPt, currEdgeAt, gStraight, emptyGeometry, Vec3.sub]
  have hokS : 0 < Vec3.magSq ⟨1, 0, 0⟩ := by norm_num [Vec3.magSq]
  have hndS : ¬ dotBelowCut ⟨1, 0, 0⟩ ⟨1, 0, 0⟩ := by
    norm_num [dotBelowCut, Vec3.dot, Vec3.magSq]
  obtain ⟨h3, _⟩ := strokeJoinIffBend gStraight 0
    (processEdge gStraight 0 (initLineState gStraight))
    (0, 1) (1, 2) rfl rfl rfl (by rw [hconnS]; rfl)
    (fun _ => Or.inr (by rw [hcapsS]; rfl))
  rw [hlvS, hdirS] at h3
  dsimp only at h3
  rw [if_pos hokS, if_neg (fun hc => hndS hc.2), List.append_nil] at h3
  exact ⟨⟨h1, h2⟩, h3⟩

/-! ### Claim C9: `lastValidDir` across the edge pass -/

theorem contJoinStep_lastValidDir (g : Geometry) (i : ℕ) (s : LineState) :
    (contJoinStep g i s).lastValidDir = s.lastValidDir := by
  unfold contJoinStep addJoin
  repeat' split
  all_goals rfl

theorem discontBeginStep_lastValidDir (g : Geometry) (i : ℕ) (s : LineState) :
    (discontBeginStep g i s).lastValidDir = s.lastValidDir := by
  unfold discontBeginStep addJoin
  repeat' split
  all_goals rfl

theorem discontPrevStep_lastValidDir (g : Geometry) (i : ℕ) (pe : ℕ × ℕ) (s : LineState) :
    (discontPrevStep g i pe s).lastValidDir = s.lastValidDir ∨
      (discontPrevStep g i pe s).lastValidDir = none := by
  unfold discontPrevStep
  repeat' split
  all_goals first | exact Or.inl rfl | exact Or.inr rfl

theorem lastEdgeStep_lastValidDir (g : Geometry) (i : ℕ) (s : LineState) :
    (lastEdgeStep g i s).lastValidDir = s.lastValidDir := by
  unfold lastEdgeStep addJoin
  repeat' split
  all_goals rfl

theorem segStep_degenerate (g : Geometry) (i : ℕ) (s : LineState)
    (h : (edgeDir g i).magSq = 0) : segStep g i s = s := by
  unfold segStep
  rw [if_neg (by rw [h]; exact lt_irrefl 0)]

/-- Claim C9 as amended: across the edge pass, `lastValidDir` is assigned a
direction value only from a non-degenerate current edge (otherwise it is
preserved or cleared), and a zero-length edge *that continues the previous
edge* preserves it; but a zero-length edge at a discontinuity, with a valid
tangent pending at an unconnected previous end vertex, moves that tangent
into a pending cap/join record and clears `lastValidDir` (the claim as
stated — that a zero-length edge never erases it — fails there, see the
counterexample). -/
theorem lastValidDirUpdate (g : Geometry) (k : ℕ) (s : LineState) (ep : ℕ × ℕ)
    (hep : g.edges[k]? = some ep) :
    (∀ i : ℕ, ∀ d : Vec3, (processEdge g i s).lastValidDir = some d →
      s.lastValidDir = some d ∨ (0 < (edgeDir g i).magSq ∧ d = edgeDir g i)) ∧
    ((edgeDir g (k + 1)).magSq = 0 →
      (processEdge g (k + 1) s).lastValidDir =
        if ep.2 ≠ (currEdgeAt g (k + 1)).1 ∧ s.lastValidDir ≠ none ∧
            s.connected.contains ep.2 = false
        then none else s.lastValidDir) := by
  constructor
  · intro i d h
    unfold processEdge dirStep at h
    split at h
    · right
      constructor
      · assumption
      · exact (Option.some_inj.mp h).symm
    · left
      rw [lastEdgeStep_lastValidDir] at h
      unfold connectStep at h
      split at h
      · split at h
        · rw [contJoinStep_lastValidDir, segStep_lastValidDir] at h
          exact h
        · rcases discontPrevStep_lastValidDir g i _
            (discontBeginStep g i (segStep g i s)) with hd | hd
          · rw [hd, discontBeginStep_lastValidDir, segStep_lastValidDir] at h
            exact h
          · rw [hd] at h
            exact absurd h (by simp)
      · rw [discontBeginStep_lastValidDir, segStep_lastValidDir] at h
        exact h
  · intro hdeg
    have hnotpos : ¬ 0 < (edgeDir g (k + 1)).magSq := by
      rw [hdeg]; exact lt_irrefl 0
    have hprev : prevEdgeAt g (k + 1) = some ep := by
      unfold prevEdgeAt
      rw [if_neg (Nat.succ_ne_zero k)]
      simpa using hep
    unfold processEdge dirStep
    rw [if_neg hnotpos, lastEdgeStep_lastValidDir]
    unfold connectStep
    rw [hprev]
    dsimp only
    rw [segStep_degenerate g (k + 1) s hdeg]
    by_cases hcont : ep.2 = (currEdgeAt g (k + 1)).1
    · rw [if_pos hcont, contJoinStep_lastValidDir,
        if_neg (fun hc => hc.1 hcont)]
    · rw [if_neg hcont]
      have hdb : discontBeginStep g (k + 1) s = s := by
        unfold discontBeginStep
        rw [if_neg (fun hc => hnotpos hc.1)]
      rw [hdb]
      unfold discontPrevStep
      cases hlv : s.lastValidDir with
      | none =>
        dsimp only
        rw [if_neg (fun hc => hc.2.1 rfl)]
        exact hlv
      | some lv =>
        dsimp only
        by_cases hconn : s.connected.contains ep.2 = false
        · rw [if_pos hconn, if_pos ⟨hcont, Option.some_ne_none lv, hconn⟩]
        · rw [if_neg hconn, if_neg (fun hc => hconn hc.2.2)]
          exact hlv

/-- Claim C9, counterexample to the claim as stated: after the
non-degenerate edge 0 of `gZeroDisc`, `lastValidDir` holds `(1,0,0)`;
edge 1 is zero-length (`(2,2)`, a degenerate edge starting a new line), and
processing it sets `lastValidDir` to `none` — the zero-length edge erases
the stored valid tangent direction. -/
theorem lastValidDirErasedCounterexample :
    (processEdge gZeroDisc 0 (initLineState gZeroDisc)).lastValidDir = some ⟨1, 0, 0⟩ ∧
    edgeDir gZeroDisc 1 = Vec3.zero ∧
    (processEdge gZeroDisc 1
      (processEdge gZeroDisc 0 (initLineState gZeroDisc))).lastValidDir = none := by
  refine ⟨?_, ?_, ?_⟩ <;>
  · simp only [processEdge, segStep, connectStep, contJoinStep, discontBeginStep,
      discontPrevStep, lastEdgeStep, dirStep, currEdgeAt, prevEdgeAt, edgeBeginPt,
      edgeEndPt, edgeDir, edgeFromColor, edgeToColor, addSegment, addJoin,
      mapGet, mapSet, mapDelete, setAdd, initLineState, gZeroDisc, emptyGeometry,
      Vec3.sub, Vec3.magSq, Vec3.neg, Vec3.smul, Vec3.dot, Vec3.arr, Vec3.zero, repFlat,
      dotBelowCut, List.find?]
    norm_num

/-- Claim C9, witness: a zero-length *continuing* edge (edge 1 of
`gZeroCont`) leaves `lastValidDir` unchanged at `(1,0,0)`. -/
theorem lastValidDirUpdateWitness :
    (processEdge gZeroCont 1
      (processEdge gZeroCont 0 (initLineState gZeroCont))).lastValidDir =
      some ⟨1, 0, 0⟩ := by
  have hdeg : (edgeDir gZeroCont 1).magSq = 0 := by
    norm_num [edgeDir, edgeBeginPt, edgeEndPt, currEdgeAt, gZeroCont, emptyGeometry,
      Vec3.sub, Vec3.magSq]
  have h := (lastValidDirUpdate gZeroCont 0
    (processEdge gZeroCont 0 (initLineState gZeroCont)) (0, 1) rfl).2 hdeg
  rw [h, if_neg (fun hc => hc.1 rfl)]
  norm_num [processEdge, segStep, connectStep, contJoinStep, discontBeginStep,
    discontPrevStep, lastEdgeStep, dirStep, currEdgeAt, prevEdgeAt, edgeBeginPt,
    edgeEndPt, edgeDir, edgeFromColor, edgeToColor, addSegment, addJoin,
    mapGet, mapSet, mapDelete, setAdd, initLineState, gZeroCont, emptyGeometry,
    Vec3.sub, Vec3.magSq, Vec3.neg, Vec3.smul, Vec3.dot, Vec3.arr, repFlat,
    dotBelowCut, List.find?]

/-! ### Claim C2: a single non-degenerate edge -/

/-- Claim C2: a geometry whose edge list is a single non-degenerate edge
(two distinct endpoint positions) tessellates into exactly 18 stroke
vertices — the 6-vertex segment rectangle followed by the two 6-vertex
caps (54 position scalars in total) — and every cap vertex's tangent-out is
the zero vector (the 12 cap vertices' tangent-out triples are all zero). -/
theorem strokeSingleEdge (g : Geometry) (i0 i1 : ℕ) (p q : Vec3)
    (hedges : g.edges = [(i0, i1)])
    (hv0 : g.vertices[i0]? = some p) (hv1 : g.vertices[i1]? = some q)
    (hpq : p ≠ q) :
    (edgesToVertices g).lineSides = segSides ++ capSides ++ capSides ∧
    (edgesToVertices g).lineVertices =
      (p.arr ++ q.arr ++ p.arr ++ q.arr ++ q.arr ++ p.arr) ++
        repFlat 6 p.arr ++ repFlat 6 q.arr ∧
    (edgesToVertices g).lineVertices.length = 54 ∧
    (edgesToVertices g).lineTangentsOut =
      repFlat 6 (Vec3.sub q p).arr ++ repFlat 12 [0, 0, 0] := by
  have hp : g.vertices.getD i0 Vec3.zero = p := getD_of_getElem? _ _ _ _ hv0
  have hq : g.vertices.getD i1 Vec3.zero = q := getD_of_getElem? _ _ _ _ hv1
  have hi01 : i0 ≠ i1 := by
    intro h
    rw [h, hq] at hp
    exact hpq hp.symm
  have hbeq : (i0 == i1) = false := beq_eq_false_iff_ne.mpr hi01
  have hok : 0 < (Vec3.sub q p).magSq := by
    rw [Vec3.magSq_pos_iff]
    intro h
    exact hpq ((Vec3.sub_eq_zero_iff q p).mp h).symm
  refine ⟨?_, ?_, ?_, ?_⟩ <;>
  · simp only [edgesToVertices, strokeState, processEdge, segStep, connectStep,
      contJoinStep, discontBeginStep, discontPrevStep, lastEdgeStep, dirStep,
      currEdgeAt, prevEdgeAt, edgeBeginPt, edgeEndPt, edgeDir, addSegment, addJoin,
      addCap, mapGet, mapSet, mapDelete, setAdd, initLineState, hedges, hp, hq, hbeq,
      hok, List.find?, Vec3.arr, repFlat, segSides, capSides, List.length_cons,
      List.length_nil, List.range_succ, List.range_zero, List.foldl_cons,
      List.foldl_nil, List.getD_cons_zero, List.getD_cons_succ, List.contains,
      List.elem_nil, List.append_nil, List.nil_append, List.append_assoc,
      List.cons_append, List.length_append, List.length_replicate, if_true,
      Nat.sub_self, List.filter]
    try norm_num

/-- Claim C2, witness: the one-edge geometry `gSeg` yields side codes
segment+cap+cap (18 stroke vertices, 54 position scalars) and the two caps'
tangent-out entries are all zero. -/
theorem strokeSingleEdgeWitness :
    (edgesToVertices gSeg).lineSides = segSides ++ capSides ++ capSides ∧
    (edgesToVertices gSeg).lineVertices.length = 54 ∧
    (edgesToVertices gSeg).lineTangentsOut =
      repFlat 6 (Vec3.sub ⟨3, 0, 4⟩ ⟨0, 0, 0⟩).arr ++ repFlat 12 [0, 0, 0] := by
  have h := strokeSingleEdge gSeg 0 1 ⟨0, 0, 0⟩ ⟨3, 0, 4⟩ rfl rfl rfl (by decide)
  exact ⟨h.1, h.2.2.1, h.2.2.2⟩

/-! ### Claim C10: default stroke colors -/

theorem repFlat_length (n : ℕ) (l : List ℚ) : (repFlat n l).length = n * l.length := by
  induction n with
  | zero => simp [repFlat]
  | succ m ih => simp [repFlat, ih]; ring

theorem mem_repFlat (n : ℕ) (l : List ℚ) (c : ℚ) (h : c ∈ repFlat n l) : c ∈ l := by
  induction n with
  | zero => exact absurd h (by simp [repFlat])
  | succ m ih =>
    rw [repFlat, List.mem_append] at h
    exact h.elim id ih

theorem drop_append_zero (n0 : ℕ) (l1 l2 : List ℚ)
    (h1 : ∀ c ∈ l1.drop n0, c = (0 : ℚ)) (h2 : ∀ c ∈ l2, c = (0 : ℚ)) :
    ∀ c ∈ (l1 ++ l2).drop n0, c = 0 := by
  intro c hc
  rw [List.drop_append_eq_append_drop, List.mem_append] at hc
  exact hc.elim (h1 c) (fun hm => h2 c (List.mem_of_mem_drop hm))

theorem addSegment_inv0 (n0 : ℕ) (s : LineState) (bp ep dir : Vec3)
    (h : zeroColorInv n0 s) :
    zeroColorInv n0 (addSegment s bp ep [0, 0, 0, 0] [0, 0, 0, 0] dir) := by
  obtain ⟨hz, hl, hcaps⟩ := h
  refine ⟨drop_append_zero n0 _ _ hz (by intro c hc; simpa using hc), ?_, hcaps⟩
  show (s.lineVertexColors ++ _).length = n0 + 4 * (s.lineSides ++ _).length
  rw [List.length_append, List.length_append, hl]
  norm_num
  ring

theorem addJoin_inv0 (n0 : ℕ) (s : LineState) (pt ft tt2 : Vec3)
    (h : zeroColorInv n0 s) :
    zeroColorInv n0 (addJoin s pt ft tt2 [0, 0, 0, 0]) := by
  obtain ⟨hz, hl, hcaps⟩ := h
  refine ⟨drop_append_zero n0 _ _ hz
    (fun c hc => by simpa using mem_repFlat _ _ _ hc), ?_, hcaps⟩
  show (s.lineVertexColors ++ _).length = n0 + 4 * ((s.lineSides ++ _) ++ _).length
  rw [List.length_append, repFlat_length, List.length_append, List.length_append, hl]
  norm_num
  ring

theorem addCap_inv0 (n0 : ℕ) (s : LineState) (pt tan : Vec3)
    (h : zeroColorInv n0 s) :
    zeroColorInv n0 (addCap s pt tan [0, 0, 0, 0]) := by
  obtain ⟨hz, hl, hcaps⟩ := h
  refine ⟨drop_append_zero n0 _ _ hz
    (fun c hc => by simpa using mem_repFlat _ _ _ hc), ?_, hcaps⟩
  show (s.lineVertexColors ++ _).length = n0 + 4 * (s.lineSides ++ _).length
  rw [List.length_append, repFlat_length, List.length_append, hl]
  norm_num
  ring

theorem mapSet_colors (m : List (ℕ × CapRec)) (k : ℕ) (v : CapRec)
    (hm : ∀ kc ∈ m, kc.2.color = [(0 : ℚ), 0, 0, 0]) (hv : v.color = [(0 : ℚ), 0, 0, 0]) :
    ∀ kc ∈ mapSet m k v, kc.2.color = [(0 : ℚ), 0, 0, 0] := by
  intro kc hkc
  unfold mapSet at hkc
  split at hkc
  · rw [List.mem_map] at hkc
    obtain ⟨p, hp, heq⟩ := hkc
    by_cases hb : (p.1 == k) = true
    · rw [if_pos hb] at heq
      rw [← heq]
      exact hv
    · rw [if_neg hb] at heq
      rw [← heq]
      exact hm p hp
  · rw [List.mem_append] at hkc
    rcases hkc with hkc | hkc
    · exact hm kc hkc
    · rw [List.mem_singleton] at hkc
      rw [hkc]
      exact hv

theorem mapDelete_colors (m : List (ℕ × CapRec)) (k : ℕ)
    (hm : ∀ kc ∈ m, kc.2.color = [(0 : ℚ), 0, 0, 0]) :
    ∀ kc ∈ mapDelete m k, kc.2.color = [(0 : ℚ), 0, 0, 0] := by
  intro kc hkc
  unfold mapDelete at hkc
  exact hm kc (List.mem_filter.mp hkc).1

theorem contJoinStep_inv0 (g : Geometry) (i : ℕ) (hsc : g.vertexStrokeColors = [])
    (n0 : ℕ) (s : LineState) (h : zeroColorInv n0 s) :
    zeroColorInv n0 (contJoinStep g i s) := by
  have hfc : edgeFromColor g i = [(0 : ℚ), 0, 0, 0] := by simp [edgeFromColor, hsc]
  unfold contJoinStep
  split
  · dsimp only
    have h1 : zeroColorInv n0
        { s with connected := setAdd s.connected (currEdgeAt g i).1,
                 potentialCaps := mapDelete s.potentialCaps (currEdgeAt g i).1 } :=
      ⟨h.1, h.2.1, mapDelete_colors _ _ h.2.2⟩
    split
    · split
      · rw [hfc]
        exact addJoin_inv0 _ _ _ _ _ h1
      · exact h1
    · exact h1
  · exact h

theorem discontBeginStep_inv0 (g : Geometry) (i : ℕ) (hsc : g.vertexStrokeColors = [])
    (n0 : ℕ) (s : LineState) (h : zeroColorInv n0 s) :
    zeroColorInv n0 (discontBeginStep g i s) := by
  have hfc : edgeFromColor g i = [(0 : ℚ), 0, 0, 0] := by simp [edgeFromColor, hsc]
  unfold discontBeginStep
  split
  · cases hcap : mapGet s.potentialCaps (currEdgeAt g i).1 with
    | some cap =>
      dsimp only
      rw [hfc]
      have hj := addJoin_inv0 n0 s (edgeBeginPt g i) cap.dir (edgeDir g i) h
      exact ⟨hj.1, hj.2.1, mapDelete_colors _ _ h.2.2⟩
    | none =>
      dsimp only
      exact ⟨h.1, h.2.1, mapSet_colors _ _ _ h.2.2 hfc⟩
  · exact h

theorem discontPrevStep_inv0 (g : Geometry) (i : ℕ) (pe : ℕ × ℕ)
    (hsc : g.vertexStrokeColors = []) (n0 : ℕ) (s : LineState) (h : zeroColorInv n0 s) :
    zeroColorInv n0 (discontPrevStep g i pe s) := by
  have hfc : edgeFromColor g i = [(0 : ℚ), 0, 0, 0] := by simp [edgeFromColor, hsc]
  unfold discontPrevStep
  cases hlv : s.lastValidDir with
  | none => exact h
  | some lv =>
    dsimp only
    split
    · cases hcap : mapGet s.potentialCaps pe.2 with
      | some cap =>
        dsimp only
        rw [hfc]
        have hj := addJoin_inv0 n0 s (g.vertices.getD pe.2 Vec3.zero) lv
          (Vec3.neg cap.dir) h
        exact ⟨hj.1, hj.2.1, mapDelete_colors _ _ h.2.2⟩
      | none =>
        dsimp only
        exact ⟨h.1, h.2.1, mapSet_colors _ _ _ h.2.2 hfc⟩
    · exact h

theorem lastEdgeStep_inv0 (g : Geometry) (i : ℕ) (hsc : g.vertexStrokeColors = [])
    (n0 : ℕ) (s : LineState) (h : zeroColorInv n0 s) :
    zeroColorInv n0 (lastEdgeStep g i s) := by
  have htc : edgeToColor g i = [(0 : ℚ), 0, 0, 0] := by simp [edgeToColor, hsc]
  unfold lastEdgeStep
  split
  · cases hcap : mapGet s.potentialCaps (currEdgeAt g i).2 with
    | some cap =>
      dsimp only
      rw [htc]
      have hj := addJoin_inv0 n0 s (edgeEndPt g i) (edgeDir g i) (Vec3.neg cap.dir) h
      exact ⟨hj.1, hj.2.1, mapDelete_colors _ _ h.2.2⟩
    | none =>
      dsimp only
      exact ⟨h.1, h.2.1, mapSet_colors _ _ _ h.2.2 htc⟩
  · exact h

theorem dirStep_inv0 (g : Geometry) (i : ℕ) (n0 : ℕ) (s : LineState)
    (h : zeroColorInv n0 s) : zeroColorInv n0 (dirStep g i s) := by
  unfold dirStep
  split
  · exact ⟨h.1, h.2.1, h.2.2⟩
  · exact h

theorem processEdge_zeroColors (g : Geometry) (hsc : g.vertexStrokeColors = [])
    (n0 i : ℕ) (s : LineState) (h : zeroColorInv n0 s) :
    zeroColorInv n0 (processEdge g i s) := by
  have hfc : edgeFromColor g i = [(0 : ℚ), 0, 0, 0] := by simp [edgeFromColor, hsc]
  have htc : edgeToColor g i = [(0 : ℚ), 0, 0, 0] := by simp [edgeToColor, hsc]
  have h1 : zeroColorInv n0 (segStep g i s) := by
    unfold segStep
    split
    · rw [hfc, htc]
      exact addSegment_inv0 _ _ _ _ _ h
    · exact h
  have h2 : zeroColorInv n0 (connectStep g i (segStep g i s)) := by
    unfold connectStep
    split
    · split
      · exact contJoinStep_inv0 g i hsc n0 _ h1
      · exact discontPrevStep_inv0 g i _ hsc n0 _ (discontBeginStep_inv0 g i hsc n0 _ h1)
    · exact discontBeginStep_inv0 g i hsc n0 _ h1
  exact dirStep_inv0 g i n0 _ (lastEdgeStep_inv0 g i hsc n0 _ h2)

/-- Claim C10: when the per-vertex stroke-color array is empty, every
stroke vertex emitted by the tessellation pass — segments, joins and caps
alike — is assigned the RGBA color `[0,0,0,0]`: all color components
appended by the pass are zero, four per emitted vertex.  (The source takes
the `[0,0,0,0]` default branch, so no lookup into the empty array
occurs.) -/
theorem strokeColorsDefaultZero (g : Geometry) (hsc : g.vertexStrokeColors = []) :
    (∀ c ∈ (edgesToVertices g).lineVertexColors.drop g.lineVertexColors.length, c = 0) ∧
    (edgesToVertices g).lineVertexColors.length =
      g.lineVertexColors.length + 4 * (edgesToVertices g).lineSides.length := by
  have hinv : zeroColorInv g.lineVertexColors.length (strokeState g) := by
    unfold strokeState
    have hinit : zeroColorInv g.lineVertexColors.length (initLineState g) :=
      ⟨by simp [initLineState], by simp [initLineState], by simp [initLineState]⟩
    have hedges : zeroColorInv g.lineVertexColors.length
        ((List.range g.edges.length).foldl (fun s i => processEdge g i s)
          (initLineState g)) :=
      List.foldlRecOn _ _ _ hinit
        (fun b hb a _ => processEdge_zeroColors g hsc _ a b hb)
    refine List.foldlRecOn _ _ _ hedges (fun b hb kc hkc => ?_)
    rw [hedges.2.2 kc hkc]
    exact addCap_inv0 _ _ _ _ hb
  exact ⟨hinv.1, hinv.2.1⟩

/-- Claim C10, witness: the one-edge geometry `gSeg` has an empty stroke
color array, and every emitted color component is zero, four per emitted
vertex. -/
theorem strokeColorsDefaultZeroWitness :
    (∀ c ∈ (edgesToVertices gSeg).lineVertexColors, c = 0) ∧
    (edgesToVertices gSeg).lineVertexColors.length =
      4 * (edgesToVertices gSeg).lineSides.length := by
  have h := strokeColorsDefaultZero gSeg rfl
  constructor
  · intro c hc
    refine h.1 c ?_
    show c ∈ List.drop 0 (edgesToVertices gSeg).lineVertexColors
    rw [List.drop_zero]
    exact hc
  · have := h.2
    simpa [gSeg, emptyGeometry] using this
